import Mathlib

/-!
Verification of the chess-tic-tac-toe rules engine and CPU opponent.

The TypeScript sources are shallowly embedded: JS strings are modelled as
`List Char`, JS numbers appearing as coordinates, directions and scores as
`ℤ`, counters and depths as `ℕ`, nullable values as `Option`, and the
`Record<string, number>` position-count map as a total function
`List Char → ℕ` (absent keys read as 0, matching `counts[k] || 0`).
Side effects of the app layer (sound playback, the network send, the
artificial thinking delay) do not influence the returned state or move and
are omitted.  `Date.now()` (used only to mint a fresh piece id) and
`Math.random()` (used only to pick an index below `moves.length`) are
modelled as explicit parameters of the corresponding functions.
-/

namespace ChessTTT

/-- JS strings are modelled as lists of characters. -/
abbrev Str := List Char

/-- `type Color = 'white' | 'black'`. -/
inductive Color where
  | white
  | black
deriving DecidableEq, Repr

/-- `enum PieceType { PAWN = 'P', ROOK = 'R', KNIGHT = 'N', BISHOP = 'B' }`. -/
inductive PieceType where
  | pawn
  | rook
  | knight
  | bishop
deriving DecidableEq, Repr

/-- `type GameMode = 'ai' | 'local' | 'online'` (`loc` stands for 'local'). -/
inductive GameMode where
  | ai
  | loc
  | online
deriving DecidableEq, Repr

/-- `type Difficulty = 'easy' | 'medium' | 'hard'`. -/
inductive Difficulty where
  | easy
  | medium
  | hard
deriving DecidableEq, Repr

/-- The enum value of a piece type (its single-character JS string). -/
def typeChar : PieceType → Char
  | .pawn => 'P'
  | .rook => 'R'
  | .knight => 'N'
  | .bishop => 'B'

/-- The JS string of a color. -/
def colorStr : Color → Str
  | .white => "white".data
  | .black => "black".data

/-- `interface Piece { type; color; id; pawnDirection? }`.  The optional
`pawnDirection` field is declared in the source but never written by the
core logic. -/
structure Piece where
  type : PieceType
  color : Color
  id : Str
  pawnDirection : Option ℤ := none
deriving DecidableEq, Repr

/-- `interface Position { r: number; c: number }`. -/
structure Position where
  r : ℤ
  c : ℤ
deriving DecidableEq, Repr

/-- The two variants of `Move.type`: `'place' | 'move'`. -/
inductive MoveType where
  | place
  | move
deriving DecidableEq, Repr

/-- `interface Move { type; pieceType; from?; to; captured?; pieceId?;
logicFeedback? }` (`fromPos` and `toPos` model the `from` and `to` fields, reserved words in
Lean). -/
structure Move where
  type : MoveType
  pieceType : PieceType
  fromPos : Option Position := none
  toPos : Position
  captured : Option Piece := none
  pieceId : Option Str := none
  logicFeedback : Option Str := none
deriving DecidableEq, Repr

/-- `winner : Color | 'draw' | null` — the non-null values. -/
inductive GWinner where
  | color (c : Color)
  | draw
deriving DecidableEq, Repr

/-- The two per-color hands, `hands: { white: PieceType[]; black: PieceType[] }`. -/
structure Hands where
  white : List PieceType
  black : List PieceType
deriving DecidableEq, Repr

/-- Per-color pawn directions, `pawnDirections: { white: number; black: number }`. -/
structure PawnDirs where
  white : ℤ
  black : ℤ
deriving DecidableEq, Repr

/-- The board: `(Piece | null)[][]`. -/
abbrev Board := List (List (Option Piece))

/-- `interface GameState`. -/
structure GameState where
  board : Board
  hands : Hands
  pawnDirections : PawnDirs
  currentPlayer : Color
  winner : Option GWinner
  winningLine : Option (List Position)
  history : List Move
  statusMessage : Str
  gameMode : GameMode
  difficulty : Difficulty
  positionCounts : Str → ℕ

/-- `export const GRID_SIZE = 4`. -/
def GRID_SIZE : ℕ := 4

/-- Index a hand by color. -/
def Hands.get (h : Hands) : Color → List PieceType
  | .white => h.white
  | .black => h.black

/-- Replace a hand by color. -/
def Hands.set (h : Hands) : Color → List PieceType → Hands
  | .white, l => { h with white := l }
  | .black, l => { h with black := l }

/-- Index pawn directions by color. -/
def PawnDirs.get (d : PawnDirs) : Color → ℤ
  | .white => d.white
  | .black => d.black

/-- Replace one color's pawn direction. -/
def PawnDirs.set (d : PawnDirs) : Color → ℤ → PawnDirs
  | .white, v => { d with white := v }
  | .black, v => { d with black := v }

/-- The opponent of a color (`player === 'white' ? 'black' : 'white'`). -/
def other : Color → Color
  | .white => .black
  | .black => .white

/-- Whether a position lies on the 4×4 grid. -/
def InBounds (p : Position) : Prop :=
  0 ≤ p.r ∧ p.r < (GRID_SIZE : ℤ) ∧ 0 ≤ p.c ∧ p.c < (GRID_SIZE : ℤ)

instance (p : Position) : Decidable (InBounds p) := by unfold InBounds; infer_instance

/-- Read `board[p.r][p.c]`.  Out-of-bounds reads give `none`, the
counterpart of JS `undefined`. -/
def getCell (b : Board) (p : Position) : Option Piece :=
  if InBounds p then (b.getD p.r.toNat []).getD p.c.toNat none else none

/-- Write `board[p.r][p.c] = x` on a fresh copy.  Out-of-bounds writes are
ignored (the engine only ever writes to validated squares). -/
def setCell (b : Board) (p : Position) (x : Option Piece) : Board :=
  b.set p.r.toNat ((b.getD p.r.toNat []).set p.c.toNat x)

/-- `createEmptyBoard`: a 4×4 grid of `null`. -/
def createEmptyBoard : Board :=
  List.replicate GRID_SIZE (List.replicate GRID_SIZE none)

/-- `isPosEqual`. -/
def isPosEqual (p1 p2 : Position) : Bool :=
  p1.r == p2.r && p1.c == p2.c

/-- The board is a well-formed 4×4 grid. -/
def Dims4 (b : Board) : Prop :=
  b.length = GRID_SIZE ∧ ∀ row ∈ b, row.length = GRID_SIZE

instance (b : Board) : Decidable (Dims4 b) := by unfold Dims4; infer_instance

/-- `elements.join(sep)` for a single-character separator: the separator
character goes between consecutive elements. -/
def joinSep (sep : Char) : List Str → Str
  | [] => []
  | [x] => x
  | x :: xs => x ++ sep :: joinSep sep xs

/-- One board cell of the serialized key: `p ? color + type : '-'`. -/
def cellStr : Option Piece → Str
  | none => ['-']
  | some p => colorStr p.color ++ [typeChar p.type]

/-- A hand as it appears in the key: `[...hand].sort().join('')` (the enum
values are single characters, so sorting the JS strings sorts the
characters lexicographically; the choice of sorting algorithm is
observationally irrelevant on characters). -/
def handStr (h : List PieceType) : Str :=
  (h.map typeChar).insertionSort (· ≤ ·)

/-- The decimal rendering of a JS number that holds an integer. -/
def intStr (z : ℤ) : Str := (toString z).data

/-- `serializeState(board, hands, currentPlayer, pawnDirections)`:
the canonical repetition key
`boardStr|handW|handB|currentPlayer|dirW,dirB`. -/
def serializeState (board : Board) (hands : Hands) (currentPlayer : Color)
    (pawnDirections : PawnDirs) : Str :=
  let boardStr := joinSep ',' (board.flatten.map cellStr)
  let handW := handStr hands.white
  let handB := handStr hands.black
  let pawnDir := intStr pawnDirections.white ++ ',' :: intStr pawnDirections.black
  boardStr ++ '|' :: (handW ++ '|' :: (handB ++ '|' :: (colorStr currentPlayer ++ '|' :: pawnDir)))

/-- The result record of `isValidMove`: `{ valid: boolean; message?: string }`. -/
structure Validation where
  valid : Bool
  message : Option Str := none
deriving DecidableEq, Repr

/-- The squares strictly between `from` and `to` that the rook/bishop
`while` loop inspects: `n` intermediate steps of `(rStep, cStep)` starting
one step after `fromP`. -/
def pathSquares (fromP : Position) (rStep cStep : ℤ) (n : ℕ) : List Position :=
  (List.range n).map fun i => ⟨fromP.r + (i + 1 : ℕ) * rStep, fromP.c + (i + 1 : ℕ) * cStep⟩

/-- `isValidMove(gameState, piece, from, to)`.  The `while` path scans of
the rook and bishop cases are rendered as a quantifier over the finitely
many strictly-intermediate squares the loop visits. -/
def isValidMove (gameState : GameState) (piece : Piece) (fromP toP : Position) :
    Validation :=
  let board := gameState.board
  let pawnDirections := gameState.pawnDirections
  let dr := toP.r - fromP.r
  let dc := toP.c - fromP.c
  let absDr := |dr|
  let absDc := |dc|
  if toP.r < 0 ∨ toP.r ≥ (GRID_SIZE : ℤ) ∨ toP.c < 0 ∨ toP.c ≥ (GRID_SIZE : ℤ) then
    { valid := false, message := some "Move is out of bounds.".data }
  else
    let targetPiece := getCell board toP
    if targetPiece.map Piece.color = some piece.color then
      { valid := false, message := some "You cannot capture your own piece.".data }
    else
      match piece.type with
      | .rook =>
        if dr ≠ 0 ∧ dc ≠ 0 then
          { valid := false, message := some "Rooks move straight.".data }
        else
          let rStep : ℤ := if dr = 0 then 0 else if dr > 0 then 1 else -1
          let cStep : ℤ := if dc = 0 then 0 else if dc > 0 then 1 else -1
          let steps := (max absDr absDc).toNat
          if (pathSquares fromP rStep cStep (steps - 1)).any
              (fun sq => (getCell board sq).isSome) then
            { valid := false, message := some "The path is blocked.".data }
          else
            { valid := true }
      | .bishop =>
        if absDr ≠ absDc then
          { valid := false, message := some "Bishops move diagonally.".data }
        else
          let brStep : ℤ := if dr > 0 then 1 else -1
          let bcStep : ℤ := if dc > 0 then 1 else -1
          if (pathSquares fromP brStep bcStep (absDr.toNat - 1)).any
              (fun sq => (getCell board sq).isSome) then
            { valid := false, message := some "The path is blocked.".data }
          else
            { valid := true }
      | .knight =>
        if ¬((absDr = 2 ∧ absDc = 1) ∨ (absDr = 1 ∧ absDc = 2)) then
          { valid := false, message := some "Knights move in an L-shape.".data }
        else
          { valid := true }
      | .pawn =>
        let dir := match piece.color with
          | .white => pawnDirections.white
          | .black => pawnDirections.black
        if dc = 0 ∧ dr = dir then
          if targetPiece.isSome then
            { valid := false,
              message := some "Pawns can only move forward into empty squares.".data }
          else
            { valid := true }
        else if absDc = 1 ∧ dr = dir then
          if targetPiece.isNone ∨ (targetPiece.map Piece.color = some piece.color) then
            { valid := false, message := some "Pawns can only capture diagonally.".data }
          else
            { valid := true }
        else
          { valid := false, message := some "Invalid pawn movement.".data }

/-- The candidate winning lines of `checkWin`, in source order: the `N`
rows, then the `N` columns, then the two main diagonals. -/
def winLines : List (List Position) :=
  ((List.range GRID_SIZE).map fun r =>
    (List.range GRID_SIZE).map fun c => (⟨(r : ℤ), (c : ℤ)⟩ : Position)) ++
  ((List.range GRID_SIZE).map fun c =>
    (List.range GRID_SIZE).map fun r => (⟨(r : ℤ), (c : ℤ)⟩ : Position)) ++
  [(List.range GRID_SIZE).map fun i => (⟨(i : ℤ), (i : ℤ)⟩ : Position),
   (List.range GRID_SIZE).map fun i =>
     (⟨(i : ℤ), (GRID_SIZE : ℤ) - 1 - (i : ℤ)⟩ : Position)]

/-- `checkWin(board, color)`: the first candidate line every square of
which holds a piece of `color` (`board[pos.r][pos.c]?.color === color`). -/
def checkWin (board : Board) (color : Color) : Option (List Position) :=
  winLines.find? fun line =>
    line.all fun pos => (getCell board pos).map Piece.color == some color

/-- `Array.from(new Set(hand))`: deduplication keeping first occurrences
in insertion order. -/
def jsSetDedup (l : List PieceType) : List PieceType :=
  l.foldl (fun acc x => if x ∈ acc then acc else acc ++ [x]) []

/-- `getLegalMoves(gameState, color)`: placements of each distinct hand
kind on each empty square, then relocations of each owned piece to each
validated other square, in the source's loop order. -/
def getLegalMoves (gameState : GameState) (color : Color) : List Move :=
  let board := gameState.board
  let hands := gameState.hands
  let placements :=
    (jsSetDedup (hands.get color)).flatMap fun pieceType =>
      (List.range GRID_SIZE).flatMap fun r =>
        (List.range GRID_SIZE).flatMap fun c =>
          if (getCell board ⟨(r : ℤ), (c : ℤ)⟩).isNone then
            [{ type := .place, pieceType := pieceType, toPos := ⟨(r : ℤ), (c : ℤ)⟩ }]
          else []
  let boardMoves :=
    (List.range GRID_SIZE).flatMap fun r =>
      (List.range GRID_SIZE).flatMap fun c =>
        match getCell board ⟨(r : ℤ), (c : ℤ)⟩ with
        | none => []
        | some piece =>
          if piece.color = color then
            (List.range GRID_SIZE).flatMap fun tr =>
              (List.range GRID_SIZE).flatMap fun tc =>
                if r = tr ∧ c = tc then []
                else if (isValidMove gameState piece ⟨(r : ℤ), (c : ℤ)⟩
                    ⟨(tr : ℤ), (tc : ℤ)⟩).valid then
                  [{ type := .move, pieceType := piece.type,
                     fromPos := some ⟨(r : ℤ), (c : ℤ)⟩,
                     toPos := ⟨(tr : ℤ), (tc : ℤ)⟩,
                     captured := getCell board ⟨(tr : ℤ), (tc : ℤ)⟩ }]
                else []
          else []
  placements ++ boardMoves

/-- The capitalized color of the local-mode turn prompt
(`nextPlayer.charAt(0).toUpperCase() + nextPlayer.slice(1)`). -/
def capColorStr : Color → Str
  | .white => "White".data
  | .black => "Black".data

/-- `winner.toUpperCase()`. -/
def upperColorStr : Color → Str
  | .white => "WHITE".data
  | .black => "BLACK".data

/-- The enum value of a difficulty. -/
def difficultyStr : Difficulty → Str
  | .easy => "easy".data
  | .medium => "medium".data
  | .hard => "hard".data

/-- The fresh piece id `${player}-${move.pieceType}-${Date.now()}`, with the
`Date.now()` part passed in as `now`. -/
def mkPieceId (player : Color) (pieceType : PieceType) (now : Str) : Str :=
  colorStr player ++ '-' :: typeChar pieceType :: '-' :: now

/-- The status message computed at the end of `executeMove`. -/
def statusFor (prev : GameState) (myColor : Option Color) (m : Move)
    (winner : Option GWinner) (nextPlayer : Color) : Str :=
  let msg := m.logicFeedback.getD []
  if winner = some .draw then "DRAW: 3-FOLD REPETITION".data
  else
    match winner with
    | some (.color w) => upperColorStr w ++ " WINS!".data
    | _ =>
      if msg ≠ [] then msg
      else
        match prev.gameMode with
        | .online =>
          if myColor = some nextPlayer then "Your Turn".data else "Opponent\x27s Turn".data
        | .ai =>
          if nextPlayer = .white then "Your Turn".data
          else "CPU Thinking (".data ++ difficultyStr prev.difficulty ++ ")...".data
        | .loc => capColorStr nextPlayer ++ "\x27s Turn".data

/-- The tail of `executeMove` from the capture test on, once the active
piece has been produced: `board1`/`hands1` are the board and hands after
the placement or origin-clearing step, `activePiece` the piece that will
occupy the destination. -/
def finishMove (myColor : Option Color) (prev : GameState) (m : Move)
    (board1 : Board) (hands1 : Hands) (activePiece : Piece) : GameState :=
  let player := prev.currentPlayer
  let opponent := other player
  let targetCell := getCell board1 m.toPos
  let hands2 :=
    match targetCell with
    | some q => hands1.set opponent (hands1.get opponent ++ [q.type])
    | none => hands1
  let board2 := setCell board1 m.toPos (some activePiece)
  let dirs1 :=
    if activePiece.type = .pawn ∧ m.toPos.r = 0 then
      prev.pawnDirections.set player 1
    else prev.pawnDirections
  let dirs2 :=
    if activePiece.type = .pawn ∧ m.toPos.r = (GRID_SIZE : ℤ) - 1 then
      dirs1.set player (-1)
    else dirs1
  let winningLine := checkWin board2 player
  let winner1 : Option GWinner :=
    if winningLine.isSome then some (.color player) else none
  let nextPlayer := if winner1.isSome then player else opponent
  let hash := serializeState board2 hands2 nextPlayer dirs2
  let newPositionCounts :=
    if winner1.isSome then prev.positionCounts
    else fun k => if k = hash then prev.positionCounts k + 1 else prev.positionCounts k
  let winner2 :=
    if winner1.isSome then winner1
    else if prev.positionCounts hash + 1 ≥ 3 then some .draw else none
  { prev with
    board := board2
    hands := hands2
    pawnDirections := dirs2
    currentPlayer := nextPlayer
    winner := winner2
    winningLine := winningLine
    history := prev.history ++ [m]
    statusMessage := statusFor prev myColor m winner2 nextPlayer
    positionCounts := newPositionCounts }

/-- `executeMove(move)`: the authoritative state transition of the App
component.  `myColor` is the App's online-play color (it only affects the
status message), `now` stands for `Date.now()` in the minted piece id.
The two defensive no-op guards of the source (placing a kind absent from
the hand, relocating from an empty or absent origin) return `prev`
unchanged; the tail of the function is `finishMove`. -/
def executeMove (myColor : Option Color) (now : Str) (prev : GameState)
    (m : Move) : GameState :=
  if prev.winner.isSome then prev
  else
    let player := prev.currentPlayer
    match m.type with
    | .place =>
      if m.pieceType ∈ prev.hands.get player then
        finishMove myColor prev m prev.board
          (prev.hands.set player ((prev.hands.get player).erase m.pieceType))
          { type := m.pieceType, color := player,
            id := m.pieceId.getD (mkPieceId player m.pieceType now) }
      else prev
    | .move =>
      match m.fromPos with
      | some f =>
        match getCell prev.board f with
        | some fromPiece =>
          finishMove myColor prev m (setCell prev.board f none) prev.hands fromPiece
        | none => prev
      | none => prev

/-- `resetGame(mode, difficulty, firstPlayer)`: the freshly seeded state
(status message shown for the non-online modes uses the capitalized
player, for online the waiting message). -/
def resetGame (mode : GameMode) (difficulty : Difficulty) (firstPlayer : Color) :
    GameState :=
  let emptyBoard := createEmptyBoard
  let initialHands : Hands := ⟨[.pawn, .rook, .knight, .bishop], [.pawn, .rook, .knight, .bishop]⟩
  let initialPawnDirs : PawnDirs := ⟨-1, 1⟩
  let initialHash := serializeState emptyBoard initialHands firstPlayer initialPawnDirs
  { board := emptyBoard
    hands := initialHands
    pawnDirections := initialPawnDirs
    currentPlayer := firstPlayer
    winner := none
    winningLine := none
    history := []
    statusMessage :=
      if mode = .online then "Waiting for players...".data
      else capColorStr firstPlayer ++ "\x27s turn.".data
    gameMode := mode
    difficulty := difficulty
    positionCounts := fun k => if k = initialHash then 1 else 0 }

/-! ### CPU opponent (`cpuOpponent.ts`) -/

/-- `SCORES.WIN`. -/
def SCORES_WIN : ℤ := 100000
/-- `SCORES.THREE_IN_ROW`. -/
def SCORES_THREE_IN_ROW : ℤ := 1000
/-- `SCORES.TWO_IN_ROW`. -/
def SCORES_TWO_IN_ROW : ℤ := 100
/-- `SCORES.CENTER`. -/
def SCORES_CENTER : ℤ := 80
/-- `SCORES.PIECE_ON_BOARD`. -/
def SCORES_PIECE_ON_BOARD : ℤ := 50
/-- `SCORES.PIECE_IN_HAND`. -/
def SCORES_PIECE_IN_HAND : ℤ := 30

/-- `CENTER_SQUARES`. -/
def CENTER_SQUARES : List Position :=
  [⟨1, 1⟩, ⟨1, 2⟩, ⟨2, 1⟩, ⟨2, 2⟩]

/-- The line list built inside `evaluateBoard` (and by `getLines`): for each
`i`, row `i` then column `i`, then the two diagonals.  Note the
interleaved row/column order here differs from `checkWin`'s lines. -/
def getLines : List (List Position) :=
  ((List.range GRID_SIZE).flatMap fun i =>
    [(List.range GRID_SIZE).map fun j => (⟨(i : ℤ), (j : ℤ)⟩ : Position),
     (List.range GRID_SIZE).map fun j => (⟨(j : ℤ), (i : ℤ)⟩ : Position)]) ++
  [(List.range GRID_SIZE).map fun i => (⟨(i : ℤ), (i : ℤ)⟩ : Position),
   (List.range GRID_SIZE).map fun i =>
     (⟨(i : ℤ), (GRID_SIZE : ℤ) - 1 - (i : ℤ)⟩ : Position)]

/-- The own/opposing piece counts of a line in `evaluateBoard`. -/
def lineCounts (board : Board) (aiColor : Color) (line : List Position) : ℕ × ℕ :=
  line.foldl
    (fun (acc : ℕ × ℕ) pos =>
      match (getCell board pos).map Piece.color with
      | some c => if c = aiColor then (acc.1 + 1, acc.2) else (acc.1, acc.2 + 1)
      | none => acc)
    (0, 0)

/-- The score contribution of one line (`theirs === 0` bonuses and
`mine === 0` penalties; the opponent-three penalty is
`SCORES.THREE_IN_ROW * 1.5`, which is exactly 1500). -/
def lineScore (board : Board) (aiColor : Color) (line : List Position) : ℤ :=
  let counts := lineCounts board aiColor line
  let mine := counts.1
  let theirs := counts.2
  (if theirs = 0 then
    if mine = 3 then SCORES_THREE_IN_ROW
    else if mine = 2 then SCORES_TWO_IN_ROW
    else 0
  else 0) +
  (if mine = 0 then
    if theirs = 3 then -(SCORES_THREE_IN_ROW * 3 / 2)
    else if theirs = 2 then -SCORES_TWO_IN_ROW
    else 0
  else 0)

/-- The per-square material/center term of one square. -/
def squareScore (board : Board) (aiColor : Color) (pos : Position) : ℤ :=
  match getCell board pos with
  | none => 0
  | some p =>
    let val := SCORES_PIECE_ON_BOARD +
      (if CENTER_SQUARES.any fun cs => cs.r == pos.r && cs.c == pos.c then
        SCORES_CENTER else 0)
    if p.color = aiColor then val else -val

/-- The squares visited by the `r`/`c` double loop of `evaluateBoard`, in
loop order. -/
def boardSquares : List Position :=
  (List.range GRID_SIZE).flatMap fun r =>
    (List.range GRID_SIZE).map fun c => ⟨(r : ℤ), (c : ℤ)⟩

/-- `evaluateBoard(board, hands, aiColor)`. -/
def evaluateBoard (board : Board) (hands : Hands) (aiColor : Color) : ℤ :=
  let opponent := other aiColor
  if (checkWin board aiColor).isSome then SCORES_WIN
  else if (checkWin board opponent).isSome then -SCORES_WIN
  else
    (getLines.map (lineScore board aiColor)).sum +
    (boardSquares.map (squareScore board aiColor)).sum +
    ((hands.get aiColor).length * SCORES_PIECE_IN_HAND -
     (hands.get opponent).length * SCORES_PIECE_IN_HAND)

/-- `simulateMove(gameState, move)`: the search's private transition.  It
touches only `board`, `hands` and `currentPlayer`; every other field is
spread through from the input state. -/
def simulateMove (gameState : GameState) (m : Move) : GameState :=
  let player := gameState.currentPlayer
  let opponent := other player
  let step : Board × Hands :=
    match m.type with
    | .place =>
      let newHands :=
        if m.pieceType ∈ gameState.hands.get player then
          gameState.hands.set player ((gameState.hands.get player).erase m.pieceType)
        else gameState.hands
      (setCell gameState.board m.toPos
        (some { type := m.pieceType, color := player, id := "sim".data }), newHands)
    | .move =>
      let f := m.fromPos.getD ⟨0, 0⟩
      let p := getCell gameState.board f
      let board1 := setCell gameState.board f none
      let target := getCell board1 m.toPos
      let newHands :=
        match target with
        | some q => gameState.hands.set opponent (gameState.hands.get opponent ++ [q.type])
        | none => gameState.hands
      (setCell board1 m.toPos p, newHands)
  { gameState with
    board := step.1
    hands := step.2
    currentPlayer := opponent }

/-- Scores and alpha/beta bounds: the integers extended with the two JS
infinities (`-Infinity` is `⊥`, `Infinity` is `⊤`). -/
abbrev EInt := WithBot (WithTop ℤ)

/-- An integer score as an extended score. -/
def toEInt (z : ℤ) : EInt := ((z : WithTop ℤ) : EInt)

/-- The terminal test of `minimax`:
`checkWin(board, 'white') || checkWin(board, 'black')`. -/
def winState (board : Board) : Bool :=
  (checkWin board .white).isSome || (checkWin board .black).isSome

/-- The maximizing `for`-loop of `minimax`: `maxEval`/`alpha` updates with
the `beta <= alpha` break.  `child mv a b` stands for the recursive call
`minimax(simulateMove(gameState, mv), depth - 1, a, b, false, aiColor)`. -/
def maxLoop (child : Move → EInt → EInt → EInt) :
    List Move → EInt → EInt → EInt → EInt
  | [], _, _, maxEval => maxEval
  | mv :: rest, alpha, beta, maxEval =>
    let evalScore := child mv alpha beta
    let maxEval2 := max maxEval evalScore
    let alpha2 := max alpha evalScore
    if beta ≤ alpha2 then maxEval2
    else maxLoop child rest alpha2 beta maxEval2

/-- The minimizing `for`-loop of `minimax`: `minEval`/`beta` updates with
the `beta <= alpha` break. -/
def minLoop (child : Move → EInt → EInt → EInt) :
    List Move → EInt → EInt → EInt → EInt
  | [], _, _, minEval => minEval
  | mv :: rest, alpha, beta, minEval =>
    let evalScore := child mv alpha beta
    let minEval2 := min minEval evalScore
    let beta2 := min beta evalScore
    if beta2 ≤ alpha then minEval2
    else minLoop child rest alpha beta2 minEval2

/-- `minimax(gameState, depth, alpha, beta, isMaximizing, aiColor)` with
alpha-beta pruning, exactly as in the source: evaluate at depth 0 or at a
realized win, return 0 on an empty move list, otherwise run the
maximizing or minimizing loop over the legal moves of the side to move,
recursing at depth − 1 on the simulated successor. -/
def minimax : GameState → ℕ → EInt → EInt → Bool → Color → EInt
  | s, 0, _, _, _, aiColor => toEInt (evaluateBoard s.board s.hands aiColor)
  | s, depth + 1, alpha, beta, isMaximizing, aiColor =>
    if winState s.board then
      toEInt (evaluateBoard s.board s.hands aiColor)
    else
      let moves := getLegalMoves s s.currentPlayer
      if moves = [] then toEInt 0
      else if isMaximizing then
        maxLoop (fun mv a b => minimax (simulateMove s mv) depth a b false aiColor)
          moves alpha beta ⊥
      else
        minLoop (fun mv a b => minimax (simulateMove s mv) depth a b true aiColor)
          moves alpha beta ⊤

instance : Inhabited Move := ⟨{ type := .place, pieceType := .pawn, toPos := ⟨0, 0⟩ }⟩

/-- `String.fromCharCode(65 + c)`. -/
def colChar (c : ℤ) : Char := Char.ofNat (65 + c).toNat

/-- The Hard-mode best-move loop: strict improvement keeps the earliest
best move (`if (boardValue > bestValue)`), with the per-move score given
by `score`. -/
def hardLoop (score : Move → EInt) : List Move → Move → EInt → Move × EInt
  | [], bestMove, bestValue => (bestMove, bestValue)
  | mv :: rest, bestMove, bestValue =>
    let boardValue := score mv
    if bestValue < boardValue then hardLoop score rest mv boardValue
    else hardLoop score rest bestMove bestValue

/-- The Medium-mode threat scan: for each line (in `getLines` order) count
opposing pieces and remember the last empty square; on a 3-count with an
empty square, play the first legal move landing there, if any. -/
def mediumBlock (gameState : GameState) (opponent : Color) (moves : List Move) :
    Option Move :=
  getLines.findSome? fun line =>
    let scan := line.foldl
      (fun (acc : ℕ × Option Position) pos =>
        match getCell gameState.board pos with
        | some p => if p.color = opponent then (acc.1 + 1, acc.2) else acc
        | none => (acc.1, some pos))
      (0, none)
    match scan with
    | (oppCount, some emptyPos) =>
      if oppCount = 3 then
        match moves.find? fun m => m.toPos.r == emptyPos.r && m.toPos.c == emptyPos.c with
        | some blockMove =>
          let fb := "CPU (Medium): Blocking threat at ".data ++
            colChar emptyPos.c :: intStr (emptyPos.r + 1)
          some { blockMove with logicFeedback := some fb }
        | none => none
      else none
    | (_, none) => none

/-- `getCpuMove(gameState)`.  The one random draw a call can make
(`Math.floor(Math.random() * moves.length)`) is modelled by the `rand`
parameter, reduced modulo the number of legal moves; the Hard-mode
"immersion delay" is a pure presentation effect and is dropped.  The
Medium-mode "2. Block" loop of the source computes values but neither
returns nor stores anything, so it contributes nothing here. -/
def getCpuMove (gameState : GameState) (rand : ℕ) : Option Move :=
  let moves := getLegalMoves gameState gameState.currentPlayer
  if hm : moves = [] then none
  else
    let player := gameState.currentPlayer
    let opponent := other player
    match gameState.difficulty with
    | .easy =>
      let move := moves.getD (rand % moves.length) default
      let fb := "CPU (Easy): Choosing a move at random.".data
      some { move with logicFeedback := some fb }
    | .medium =>
      match moves.find? fun m =>
          (checkWin (simulateMove gameState m).board player).isSome with
      | some move =>
        let fb := "CPU (Medium): Finishing the line for a win!".data
        some { move with logicFeedback := some fb }
      | none =>
        match mediumBlock gameState opponent moves with
        | some blockMove => some blockMove
        | none =>
          let captureMoves := moves.filter fun m =>
            m.type == .move && (getCell gameState.board m.toPos).isSome
          match captureMoves with
          | c :: _ =>
            let fb := "CPU (Medium): Prioritizing piece capture.".data
            some { c with logicFeedback := some fb }
          | [] =>
            let move := moves.getD (rand % moves.length) default
            let fb := "CPU (Medium): No immediate threats, moving strategically.".data
            some { move with logicFeedback := some fb }
    | .hard =>
      let first := moves.head (by simpa using hm)
      let best := hardLoop
        (fun mv => minimax (simulateMove gameState mv) 3 ⊥ ⊤ false player)
        moves first ⊥
      let bestMove := best.1
      let isCenter := CENTER_SQUARES.any fun cs =>
        cs.r == bestMove.toPos.r && cs.c == bestMove.toPos.c
      let feedback :=
        if bestMove.type = .place then
          "CPU (Hard): Tactical drop to ".data ++
            colChar bestMove.toPos.c :: intStr (bestMove.toPos.r + 1) ++ ".".data
        else
          "CPU (Hard): Calculated move to ".data ++
            (if isCenter then "Center".data else "strategic square".data) ++ ".".data
      some { bestMove with logicFeedback := some feedback }

/-! ### Spec-side reference search (no pruning)

`specMinimax` is modelled from the spec: "the best score found by an
unpruned exhaustive search of the same depth" — the same recursion as
`minimax` with the alpha-beta window and the break removed. -/

/-- The maximizing loop of the unpruned search. -/
def specMaxLoop (child : Move → EInt) : List Move → EInt → EInt
  | [], maxEval => maxEval
  | mv :: rest, maxEval => specMaxLoop child rest (max maxEval (child mv))

/-- The minimizing loop of the unpruned search. -/
def specMinLoop (child : Move → EInt) : List Move → EInt → EInt
  | [], minEval => minEval
  | mv :: rest, minEval => specMinLoop child rest (min minEval (child mv))

/-- Modelled from the spec: exhaustive minimax of the same depth, with no
alpha-beta window and no pruning. -/
def specMinimax : GameState → ℕ → Bool → Color → EInt
  | s, 0, _, aiColor => toEInt (evaluateBoard s.board s.hands aiColor)
  | s, depth + 1, isMaximizing, aiColor =>
    if winState s.board then
      toEInt (evaluateBoard s.board s.hands aiColor)
    else
      let moves := getLegalMoves s s.currentPlayer
      if moves = [] then toEInt 0
      else if isMaximizing then
        specMaxLoop (fun mv => specMinimax (simulateMove s mv) depth false aiColor)
          moves ⊥
      else
        specMinLoop (fun mv => specMinimax (simulateMove s mv) depth true aiColor)
          moves ⊤

/-- Modelled from the spec: the Hard-mode choice driven by the unpruned
exhaustive search (`specMinimax`) instead of the pruned `minimax`;
everything else is as in `getCpuMove`. -/
def specHardMove (gameState : GameState) : Option Move :=
  let moves := getLegalMoves gameState gameState.currentPlayer
  if hm : moves = [] then none
  else
    let player := gameState.currentPlayer
    let first := moves.head (by simpa using hm)
    let best := hardLoop
      (fun mv => specMinimax (simulateMove gameState mv) 3 false player)
      moves first ⊥
    let bestMove := best.1
    let isCenter := CENTER_SQUARES.any fun cs =>
      cs.r == bestMove.toPos.r && cs.c == bestMove.toPos.c
    let feedback :=
      if bestMove.type = .place then
        "CPU (Hard): Tactical drop to ".data ++
          colChar bestMove.toPos.c :: intStr (bestMove.toPos.r + 1) ++ ".".data
      else
        "CPU (Hard): Calculated move to ".data ++
          (if isCenter then "Center".data else "strategic square".data) ++ ".".data
    some { bestMove with logicFeedback := some feedback }

/-! ### Derived definitions used by the verification -/

/-- The pawn-direction record produced by `executeMove` for an active piece
of kind `pt` landing on row `r` (the two successive `if`s of the source). -/
def pawnDirNext (d : PawnDirs) (pl : Color) (pt : PieceType) (r : ℤ) : PawnDirs :=
  if pt = .pawn ∧ r = (GRID_SIZE : ℤ) - 1 then
    (if pt = .pawn ∧ r = 0 then d.set pl 1 else d).set pl (-1)
  else if pt = .pawn ∧ r = 0 then d.set pl 1 else d

/-- The piece kinds of one optional cell, as a multiset. -/
def kindsOfCell : Option Piece → Multiset PieceType
  | none => 0
  | some p => {p.type}

/-- The multiset of piece kinds sitting on the board. -/
def boardKinds (b : Board) : Multiset PieceType :=
  ↑(b.flatten.filterMap fun c => c.map Piece.type)

/-- The multiset of piece kinds held in the two hands. -/
def handsKinds (h : Hands) : Multiset PieceType :=
  ↑h.white + ↑h.black

/-- The piece-kind multiset of a whole state: board plus both hands. -/
def stateKinds (s : GameState) : Multiset PieceType :=
  boardKinds s.board + handsKinds s.hands

/-- The repetition-relevant content of one square: occupant color and kind
(the opaque piece id is not part of the canonical key). -/
def projCell (c : Option Piece) : Option (Color × PieceType) :=
  c.map fun p => (p.color, p.type)

/-! ### Concrete fixtures used by witnesses and counterexamples -/

/-- A white pawn used in fixture boards. -/
def wPawn : Piece := { type := .pawn, color := .white, id := "wp".data }
/-- A white rook fixture. -/
def wRook : Piece := { type := .rook, color := .white, id := "wr".data }
/-- A black bishop fixture. -/
def bBishop : Piece := { type := .bishop, color := .black, id := "bb".data }

/-- A fresh local two-player game, white to move. -/
def initLocal : GameState := resetGame .loc .medium .white

/-- A fresh CPU game on Medium, black (the CPU) to move. -/
def initMedium : GameState := resetGame .ai .medium .black

/-- A fresh CPU game on Hard, black (the CPU) to move. -/
def initHard : GameState := resetGame .ai .hard .black

/-- A board with a single white pawn on (1,0). -/
def pawnBoard : Board := setCell createEmptyBoard ⟨1, 0⟩ (some wPawn)

/-- Local game whose board is `pawnBoard`, white to move. -/
def pawnState : GameState := { initLocal with board := pawnBoard }

/-- The white pawn's relocation from (1,0) to the edge square (0,0). -/
def pawnEdgeMove : Move :=
  { type := .move, pieceType := .pawn, fromPos := some ⟨1, 0⟩, toPos := ⟨0, 0⟩ }

/-- A board whose row 0 is four white pawns (a realized white win). -/
def rowWinBoard : Board :=
  [List.replicate 4 (some wPawn), List.replicate 4 none,
   List.replicate 4 none, List.replicate 4 none]

/-- A board with only three white pawns in row 0 (no realized win). -/
def threeBoard : Board :=
  [[some wPawn, some wPawn, some wPawn, none], List.replicate 4 none,
   List.replicate 4 none, List.replicate 4 none]

/-- A board entirely covered by white pawns: every row, column and
diagonal qualifies simultaneously. -/
def fullWhiteBoard : Board :=
  List.replicate 4 (List.replicate 4 (some wPawn))

/-- A board with a white rook on (0,0) and a black bishop on (0,1). -/
def capBoard : Board :=
  setCell (setCell createEmptyBoard ⟨0, 0⟩ (some wRook)) ⟨0, 1⟩ (some bBishop)

/-- Local game on `capBoard`, white to move. -/
def capState : GameState := { initLocal with board := capBoard }

/-- White rook takes the black bishop. -/
def capMove : Move :=
  { type := .move, pieceType := .rook, fromPos := some ⟨0, 0⟩, toPos := ⟨0, 1⟩,
    captured := some bBishop }

/-! ### Helper lemmas about the board representation -/

theorem getD_set_self {α : Type} (l : List α) (i : ℕ) (a d : α) (h : i < l.length) :
    (l.set i a).getD i d = a := by
  rw [List.getD_eq_getElem?_getD, List.getElem?_set_self h]
  rfl

theorem getD_set_ne {α : Type} (l : List α) {i j : ℕ} (a d : α) (h : i ≠ j) :
    (l.set i a).getD j d = l.getD j d := by
  rw [List.getD_eq_getElem?_getD, List.getElem?_set_ne h, ← List.getD_eq_getElem?_getD]

theorem inBounds_of_getCell_isSome {b : Board} {p : Position}
    (h : (getCell b p).isSome) : InBounds p := by
  by_contra hc
  simp [getCell, hc] at h

theorem toNat_inj_of_inBounds {p q : Position} (hp : InBounds p) (hq : InBounds q)
    (h : p ≠ q) : p.r.toNat ≠ q.r.toNat ∨ p.c.toNat ≠ q.c.toNat := by
  obtain ⟨hp1, hp2, hp3, hp4⟩ := hp
  obtain ⟨hq1, hq2, hq3, hq4⟩ := hq
  by_contra hc
  push_neg at hc
  obtain ⟨h1, h2⟩ := hc
  have hr : p.r = q.r := by omega
  have hcc : p.c = q.c := by omega
  refine h ?_
  calc p = ⟨p.r, p.c⟩ := rfl
    _ = ⟨q.r, q.c⟩ := by rw [hr, hcc]
    _ = q := rfl

theorem getCell_setCell_ne (b : Board) {p q : Position} (x : Option Piece)
    (hp : InBounds p) (hne : p ≠ q) :
    getCell (setCell b p x) q = getCell b q := by
  unfold getCell setCell
  by_cases hq : InBounds q
  · simp only [hq, if_true]
    rcases toNat_inj_of_inBounds hp hq hne with hr | hc
    · rw [getD_set_ne _ _ _ hr]
    · by_cases hr : p.r.toNat = q.r.toNat
      · rw [← hr]
        by_cases hlen : p.r.toNat < b.length
        · rw [getD_set_self _ _ _ _ hlen, getD_set_ne _ _ _ hc]
        · rw [List.set_eq_of_length_le (by omega)]
      · rw [getD_set_ne _ _ _ hr]
  · simp [hq]

theorem getCell_setCell_self (b : Board) {p : Position} (x : Option Piece)
    (hd : Dims4 b) (hp : InBounds p) :
    getCell (setCell b p x) p = x := by
  obtain ⟨hlen, hrow⟩ := hd
  obtain ⟨hp1, hp2, hp3, hp4⟩ := hp
  have hr : p.r.toNat < b.length := by rw [hlen]; unfold GRID_SIZE at hp2 ⊢; omega
  have hc : p.c.toNat < (b.getD p.r.toNat []).length := by
    rw [hrow _ (by rw [List.getD_eq_getElem _ _ hr]; exact List.getElem_mem hr)]
    unfold GRID_SIZE at hp4 ⊢; omega
  unfold getCell setCell
  rw [if_pos ⟨hp1, hp2, hp3, hp4⟩, getD_set_self _ _ _ _ hr, getD_set_self _ _ _ _ hc]

theorem dims4_setCell {b : Board} (p : Position) (x : Option Piece)
    (hd : Dims4 b) : Dims4 (setCell b p x) := by
  obtain ⟨hlen, hrow⟩ := hd
  by_cases hlt : p.r.toNat < b.length
  · refine ⟨by simp [setCell, hlen], ?_⟩
    intro row hmem
    unfold setCell at hmem
    rcases List.mem_or_eq_of_mem_set hmem with h | h
    · exact hrow _ h
    · subst h
      rw [List.length_set]
      exact hrow _ (by rw [List.getD_eq_getElem _ _ hlt]; exact List.getElem_mem hlt)
  · unfold setCell
    rw [List.set_eq_of_length_le (by omega)]
    exact ⟨hlen, hrow⟩

/-! ### Helper lemmas about hands and directions -/

theorem other_ne (c : Color) : other c ≠ c := by cases c <;> simp [other]

theorem hands_get_set_self (h : Hands) (c : Color) (l : List PieceType) :
    (h.set c l).get c = l := by cases c <;> rfl

theorem hands_get_set_other (h : Hands) {c c' : Color} (l : List PieceType)
    (hne : c ≠ c') : (h.set c l).get c' = h.get c' := by
  cases c <;> cases c' <;> first | exact absurd rfl hne | rfl

theorem dirs_get_set_self (d : PawnDirs) (c : Color) (v : ℤ) :
    (d.set c v).get c = v := by cases c <;> rfl

theorem dirs_get_set_other (d : PawnDirs) {c c' : Color} (v : ℤ)
    (hne : c ≠ c') : (d.set c v).get c' = d.get c' := by
  cases c <;> cases c' <;> first | exact absurd rfl hne | rfl

/-! ### Unfolding lemmas for `executeMove` -/

theorem executeMove_place_eq (myc : Option Color) (now : Str) (s : GameState)
    (m : Move) (hw : s.winner = none) (hty : m.type = .place)
    (hin : m.pieceType ∈ s.hands.get s.currentPlayer) :
    executeMove myc now s m = finishMove myc s m s.board
      (s.hands.set s.currentPlayer ((s.hands.get s.currentPlayer).erase m.pieceType))
      { type := m.pieceType, color := s.currentPlayer,
        id := m.pieceId.getD (mkPieceId s.currentPlayer m.pieceType now) } := by
  unfold executeMove
  rw [hw]
  simp [hty, hin]

theorem executeMove_move_eq (myc : Option Color) (now : Str) (s : GameState)
    (m : Move) (f : Position) (p : Piece) (hw : s.winner = none)
    (hty : m.type = .move) (hf : m.fromPos = some f)
    (hp : getCell s.board f = some p) :
    executeMove myc now s m =
      finishMove myc s m (setCell s.board f none) s.hands p := by
  unfold executeMove
  rw [hw]
  simp [hty, hf, hp]

theorem finishMove_board (myc : Option Color) (s : GameState) (m : Move)
    (b1 : Board) (h1 : Hands) (a : Piece) :
    (finishMove myc s m b1 h1 a).board = setCell b1 m.toPos (some a) := rfl

theorem finishMove_hands (myc : Option Color) (s : GameState) (m : Move)
    (b1 : Board) (h1 : Hands) (a : Piece) :
    (finishMove myc s m b1 h1 a).hands =
      (match getCell b1 m.toPos with
       | some q =>
         h1.set (other s.currentPlayer) (h1.get (other s.currentPlayer) ++ [q.type])
       | none => h1) := rfl

theorem finishMove_pawnDirections (myc : Option Color) (s : GameState) (m : Move)
    (b1 : Board) (h1 : Hands) (a : Piece) :
    (finishMove myc s m b1 h1 a).pawnDirections =
      pawnDirNext s.pawnDirections s.currentPlayer a.type m.toPos.r := by
  unfold finishMove pawnDirNext
  by_cases h0 : a.type = .pawn ∧ m.toPos.r = 0 <;>
    by_cases h3 : a.type = .pawn ∧ m.toPos.r = (GRID_SIZE : ℤ) - 1 <;>
      simp [h0, h3]

theorem pawnDirNext_facts (d : PawnDirs) (pl : Color) (pt : PieceType) (r : ℤ) :
    (pawnDirNext d pl pt r).get (other pl) = d.get (other pl) ∧
    (pt = .pawn ∧ r = 0 → (pawnDirNext d pl pt r).get pl = 1) ∧
    (pt = .pawn ∧ r = (GRID_SIZE : ℤ) - 1 → (pawnDirNext d pl pt r).get pl = -1) ∧
    ((pt ≠ .pawn ∨ (r ≠ 0 ∧ r ≠ (GRID_SIZE : ℤ) - 1)) → pawnDirNext d pl pt r = d) := by
  have hne : pl ≠ other pl := (other_ne pl).symm
  unfold pawnDirNext
  refine ⟨?_, ?_, ?_, ?_⟩
  · split_ifs <;>
      simp [dirs_get_set_other _ _ hne]
  · intro h0
    have h3 : ¬(pt = .pawn ∧ r = (GRID_SIZE : ℤ) - 1) := by
      rintro ⟨-, h⟩
      rw [h0.2] at h
      norm_num [GRID_SIZE] at h
    simp [h0, h3, dirs_get_set_self, GRID_SIZE]
  · intro h3
    simp [h3, dirs_get_set_self, GRID_SIZE]
  · rintro (h | h)
    · have h0 : ¬(pt = .pawn ∧ r = 0) := fun hc => h hc.1
      have h3 : ¬(pt = .pawn ∧ r = (GRID_SIZE : ℤ) - 1) := fun hc => h hc.1
      simp [h0, h3]
    · have h0 : ¬(pt = .pawn ∧ r = 0) := fun hc => h.1 hc.2
      have h3 : ¬(pt = .pawn ∧ r = (GRID_SIZE : ℤ) - 1) := fun hc => h.2 hc.2
      simp [h0, h3]

/-! ### C10: the search transition only changes board, hands and turn -/

/-- C10: for every state and move, `simulateMove` returns a state whose
`pawnDirections`, `winner`, `winningLine`, `positionCounts`, `history` and
`statusMessage` are identical to the input's (only `board`, `hands` and
`currentPlayer` are rebuilt); concretely, the simulated white pawn move
from (1,0) onto edge row 0 keeps `pawnDirections` at ⟨-1, 1⟩ while the
authoritative `executeMove` on the same state and move flips white's
direction to 1. -/
theorem simulateMove_frame :
    (∀ (s : GameState) (m : Move),
      (simulateMove s m).pawnDirections = s.pawnDirections ∧
      (simulateMove s m).winner = s.winner ∧
      (simulateMove s m).winningLine = s.winningLine ∧
      (simulateMove s m).positionCounts = s.positionCounts ∧
      (simulateMove s m).history = s.history ∧
      (simulateMove s m).statusMessage = s.statusMessage ∧
      (simulateMove s m).gameMode = s.gameMode ∧
      (simulateMove s m).difficulty = s.difficulty ∧
      (simulateMove s m).currentPlayer = other s.currentPlayer) ∧
    ((simulateMove pawnState pawnEdgeMove).pawnDirections = ⟨-1, 1⟩ ∧
     pawnState.pawnDirections = ⟨-1, 1⟩ ∧
     (executeMove none [] pawnState pawnEdgeMove).pawnDirections = ⟨1, 1⟩) := by
  refine ⟨fun s m => ⟨rfl, rfl, rfl, rfl, rfl, rfl, rfl, rfl, rfl⟩, by decide, by decide, by decide⟩

/-! ### C3: pawn-direction updates -/

/-- C3 (amended): whenever `executeMove` actually applies a move — a
placement of a kind present in the hand, or a relocation from an occupied
origin — and the active piece is a pawn landing on an edge row, the
mover's pawn direction is *set* (to 1 on row 0, to −1 on row N−1), which
for a legal relocation is exactly a flip of the direction of travel; the
opponent's direction never changes, and a non-pawn active piece or a
non-edge destination leaves both directions unchanged.  Contrary to the
original claim, this applies to placements as well as relocations. -/
theorem executeMove_pawnDir_update (myc : Option Color) (now : Str)
    (s : GameState) (m : Move) (pt : PieceType) (hw : s.winner = none)
    (happ : (m.type = .place ∧ m.pieceType ∈ s.hands.get s.currentPlayer ∧
        pt = m.pieceType) ∨
      (m.type = .move ∧ ∃ f p, m.fromPos = some f ∧
        getCell s.board f = some p ∧ pt = p.type)) :
    (executeMove myc now s m).pawnDirections.get (other s.currentPlayer) =
      s.pawnDirections.get (other s.currentPlayer) ∧
    (pt = .pawn ∧ m.toPos.r = 0 →
      (executeMove myc now s m).pawnDirections.get s.currentPlayer = 1) ∧
    (pt = .pawn ∧ m.toPos.r = (GRID_SIZE : ℤ) - 1 →
      (executeMove myc now s m).pawnDirections.get s.currentPlayer = -1) ∧
    ((pt ≠ .pawn ∨ (m.toPos.r ≠ 0 ∧ m.toPos.r ≠ (GRID_SIZE : ℤ) - 1)) →
      (executeMove myc now s m).pawnDirections = s.pawnDirections) := by
  have key : (executeMove myc now s m).pawnDirections =
      pawnDirNext s.pawnDirections s.currentPlayer pt m.toPos.r := by
    rcases happ with ⟨hty, hin, hpt⟩ | ⟨hty, f, p, hf, hp, hpt⟩
    · rw [executeMove_place_eq myc now s m hw hty hin, finishMove_pawnDirections, hpt]
    · rw [executeMove_move_eq myc now s m f p hw hty hf hp, finishMove_pawnDirections, hpt]
  rw [key]
  exact pawnDirNext_facts s.pawnDirections s.currentPlayer pt m.toPos.r

/-- C3 witness: a concrete relocation instantiating the theorem — the
white pawn of `pawnState` moves from (1,0) to the edge square (0,0), and
white's direction becomes 1 while black's stays 1. -/
theorem executeMove_pawnDir_update_witness :
    (executeMove none [] pawnState pawnEdgeMove).pawnDirections.get
      (other pawnState.currentPlayer) =
      pawnState.pawnDirections.get (other pawnState.currentPlayer) ∧
    (executeMove none [] pawnState pawnEdgeMove).pawnDirections.get
      pawnState.currentPlayer = 1 := by
  have h := executeMove_pawnDir_update none [] pawnState pawnEdgeMove .pawn
    (by decide)
    (Or.inr ⟨rfl, ⟨1, 0⟩, wPawn, rfl, by decide, rfl⟩)
  exact ⟨h.1, h.2.1 ⟨rfl, rfl⟩⟩

/-- C3 counterexample: the original claim says placements never change a
pawn direction, but placing a pawn on the edge square (0,0) from the
fresh local game sets white's direction from −1 to 1. -/
theorem executeMove_pawnDir_place_cex :
    (executeMove none [] initLocal
        { type := .place, pieceType := .pawn, toPos := ⟨0, 0⟩ }).pawnDirections ≠
      initLocal.pawnDirections := by decide

/-! ### C1: captures arm the victim's owner -/

/-- C1: when an applied move lands on a square occupied by an opposing
piece `q` (whose owner is the mover's opponent), the displaced kind is
appended to the mover's opponent's hand — the hand of `q`'s owner, not the
capturer's — and the capture itself leaves the mover's hand untouched: a
relocation keeps the mover's hand exactly, and a placement changes it only
by removing the placed kind, as it would without a capture. -/
theorem executeMove_capture_transfer (myc : Option Color) (now : Str)
    (s : GameState) (m : Move) (q : Piece) (hw : s.winner = none)
    (hq : getCell s.board m.toPos = some q)
    (hqc : q.color = other s.currentPlayer) :
    (∀ f, m.type = .move → m.fromPos = some f → f ≠ m.toPos →
      (getCell s.board f).isSome →
      (executeMove myc now s m).hands.get q.color =
        s.hands.get q.color ++ [q.type] ∧
      (executeMove myc now s m).hands.get s.currentPlayer =
        s.hands.get s.currentPlayer) ∧
    (m.type = .place → m.pieceType ∈ s.hands.get s.currentPlayer →
      (executeMove myc now s m).hands.get q.color =
        s.hands.get q.color ++ [q.type] ∧
      (executeMove myc now s m).hands.get s.currentPlayer =
        (s.hands.get s.currentPlayer).erase m.pieceType) := by
  have hpo : s.currentPlayer ≠ other s.currentPlayer := (other_ne s.currentPlayer).symm
  constructor
  · intro f hty hf hne hfs
    obtain ⟨p, hp⟩ := Option.isSome_iff_exists.mp hfs
    rw [executeMove_move_eq myc now s m f p hw hty hf hp, finishMove_hands]
    have hb : getCell (setCell s.board f none) m.toPos = some q := by
      rw [getCell_setCell_ne _ _ (inBounds_of_getCell_isSome hfs) hne]
      exact hq
    rw [hb, hqc]
    exact ⟨by rw [hands_get_set_self], by rw [hands_get_set_other _ _ (other_ne s.currentPlayer)]⟩
  · intro hty hin
    rw [executeMove_place_eq myc now s m hw hty hin, finishMove_hands, hq, hqc]
    constructor
    · rw [hands_get_set_self, hands_get_set_other _ _ hpo]
    · rw [hands_get_set_other _ _ (other_ne s.currentPlayer), hands_get_set_self]

/-- C1 witness: white relocates its rook from (0,0) onto the black bishop
at (0,1): black's hand gains one Bishop kind and white's hand is exactly
unchanged. -/
theorem executeMove_capture_transfer_witness :
    (executeMove none [] capState capMove).hands.get bBishop.color =
      capState.hands.get bBishop.color ++ [bBishop.type] ∧
    (executeMove none [] capState capMove).hands.get capState.currentPlayer =
      capState.hands.get capState.currentPlayer :=
  (executeMove_capture_transfer none [] capState capMove bBishop
      (by decide) (by decide) (by decide)).1
    ⟨0, 0⟩ rfl rfl (by decide) (by decide)

/-! ### C2: repetition counting and the three-fold draw -/

theorem finishMove_no_win (myc : Option Color) (s : GameState) (m : Move)
    (b1 : Board) (h1 : Hands) (a : Piece)
    (hnw : checkWin (setCell b1 m.toPos (some a)) s.currentPlayer = none) :
    (finishMove myc s m b1 h1 a).currentPlayer = other s.currentPlayer ∧
    (finishMove myc s m b1 h1 a).positionCounts =
      (fun k =>
        if k = serializeState (finishMove myc s m b1 h1 a).board
            (finishMove myc s m b1 h1 a).hands (other s.currentPlayer)
            (finishMove myc s m b1 h1 a).pawnDirections
        then s.positionCounts k + 1 else s.positionCounts k) ∧
    (finishMove myc s m b1 h1 a).winner =
      (if s.positionCounts (serializeState (finishMove myc s m b1 h1 a).board
          (finishMove myc s m b1 h1 a).hands (other s.currentPlayer)
          (finishMove myc s m b1 h1 a).pawnDirections) + 1 ≥ 3
       then some .draw else none) := by
  refine ⟨?_, ?_, ?_⟩ <;>
    simp [finishMove, hnw]

theorem finishMove_win (myc : Option Color) (s : GameState) (m : Move)
    (b1 : Board) (h1 : Hands) (a : Piece)
    (hwl : (checkWin (setCell b1 m.toPos (some a)) s.currentPlayer).isSome) :
    (finishMove myc s m b1 h1 a).winner = some (.color s.currentPlayer) ∧
    (finishMove myc s m b1 h1 a).positionCounts = s.positionCounts ∧
    (finishMove myc s m b1 h1 a).currentPlayer = s.currentPlayer := by
  refine ⟨?_, ?_, ?_⟩ <;>
    simp [finishMove, hwl]

/-- C2: for an applied move that does not produce a win for the mover,
`executeMove` passes the turn, increments (by exactly one) the occurrence
count of the canonical key of the *resulting* configuration — resulting
board, hands, next player and pawn directions — leaves every other key's
count unchanged, and sets `winner = draw` precisely when the updated count
reaches 3 (so on the third occurrence of a configuration and not earlier,
counts growing by one per move); when the mover's move does create a
realized win, the winner is the mover and no repetition count is touched. -/
theorem executeMove_repetition (myc : Option Color) (now : Str)
    (s : GameState) (m : Move) (hw : s.winner = none)
    (happ : (m.type = .place ∧ m.pieceType ∈ s.hands.get s.currentPlayer) ∨
      (m.type = .move ∧ ∃ f, m.fromPos = some f ∧ (getCell s.board f).isSome)) :
    (checkWin (executeMove myc now s m).board s.currentPlayer = none →
      (executeMove myc now s m).currentPlayer = other s.currentPlayer ∧
      (executeMove myc now s m).positionCounts
          (serializeState (executeMove myc now s m).board
            (executeMove myc now s m).hands (executeMove myc now s m).currentPlayer
            (executeMove myc now s m).pawnDirections) =
        s.positionCounts (serializeState (executeMove myc now s m).board
            (executeMove myc now s m).hands (executeMove myc now s m).currentPlayer
            (executeMove myc now s m).pawnDirections) + 1 ∧
      (∀ k, k ≠ serializeState (executeMove myc now s m).board
            (executeMove myc now s m).hands (executeMove myc now s m).currentPlayer
            (executeMove myc now s m).pawnDirections →
        (executeMove myc now s m).positionCounts k = s.positionCounts k) ∧
      (executeMove myc now s m).winner =
        (if s.positionCounts (serializeState (executeMove myc now s m).board
              (executeMove myc now s m).hands
              (executeMove myc now s m).currentPlayer
              (executeMove myc now s m).pawnDirections) + 1 ≥ 3
         then some .draw else none)) ∧
    ((checkWin (executeMove myc now s m).board s.currentPlayer).isSome →
      (executeMove myc now s m).winner = some (.color s.currentPlayer) ∧
      (executeMove myc now s m).positionCounts = s.positionCounts) := by
  have key : ∃ b1 h1 a, executeMove myc now s m = finishMove myc s m b1 h1 a := by
    rcases happ with ⟨hty, hin⟩ | ⟨hty, f, hf, hfs⟩
    · exact ⟨_, _, _, executeMove_place_eq myc now s m hw hty hin⟩
    · obtain ⟨p, hp⟩ := Option.isSome_iff_exists.mp hfs
      exact ⟨_, _, _, executeMove_move_eq myc now s m f p hw hty hf hp⟩
  obtain ⟨b1, h1, a, he⟩ := key
  rw [he]
  constructor
  · intro hnw
    rw [finishMove_board] at hnw
    obtain ⟨hcp, hpc, hwin⟩ := finishMove_no_win myc s m b1 h1 a hnw
    refine ⟨hcp, ?_, ?_, ?_⟩
    · rw [hcp, hpc]
      simp
    · intro k hk
      rw [hcp] at hk
      rw [hpc]
      simp [hk]
    · rw [hcp, hwin]
  · intro hwl
    rw [finishMove_board] at hwl
    obtain ⟨hwin, hpc, _⟩ := finishMove_win myc s m b1 h1 a hwl
    exact ⟨hwin, hpc⟩

/-- C2 witness: applying the concrete placement of a pawn on (1,1) to the
fresh local game (no win results) increments the count of the resulting
configuration's key and produces no winner (the count is below 3). -/
theorem executeMove_repetition_witness :
    (executeMove none [] initLocal
        { type := .place, pieceType := .pawn, toPos := ⟨1, 1⟩ }).positionCounts
      (serializeState
        (executeMove none [] initLocal
          { type := .place, pieceType := .pawn, toPos := ⟨1, 1⟩ }).board
        (executeMove none [] initLocal
          { type := .place, pieceType := .pawn, toPos := ⟨1, 1⟩ }).hands
        (executeMove none [] initLocal
          { type := .place, pieceType := .pawn, toPos := ⟨1, 1⟩ }).currentPlayer
        (executeMove none [] initLocal
          { type := .place, pieceType := .pawn, toPos := ⟨1, 1⟩ }).pawnDirections) =
      initLocal.positionCounts
        (serializeState
          (executeMove none [] initLocal
            { type := .place, pieceType := .pawn, toPos := ⟨1, 1⟩ }).board
          (executeMove none [] initLocal
            { type := .place, pieceType := .pawn, toPos := ⟨1, 1⟩ }).hands
          (executeMove none [] initLocal
            { type := .place, pieceType := .pawn, toPos := ⟨1, 1⟩ }).currentPlayer
          (executeMove none [] initLocal
            { type := .place, pieceType := .pawn, toPos := ⟨1, 1⟩ }).pawnDirections) + 1 :=
  ((executeMove_repetition none [] initLocal
      { type := .place, pieceType := .pawn, toPos := ⟨1, 1⟩ } (by decide)
      (Or.inl ⟨rfl, by decide⟩)).1 (by decide)).2.1

/-! ### C9: terminal scores dominate the heuristic terms -/

theorem map_sum_bounds {α : Type} (f : α → ℤ) (lo hi : ℤ) :
    ∀ l : List α, (∀ x ∈ l, lo ≤ f x ∧ f x ≤ hi) →
      (l.length : ℤ) * lo ≤ (l.map f).sum ∧ (l.map f).sum ≤ (l.length : ℤ) * hi := by
  intro l
  induction l with
  | nil => simp
  | cons x xs ih =>
    intro h
    obtain ⟨h1, h2⟩ := h x (List.mem_cons_self x xs)
    obtain ⟨ih1, ih2⟩ := ih fun y hy => h y (List.mem_cons_of_mem x hy)
    simp only [List.map_cons, List.sum_cons, List.length_cons]
    push_cast
    constructor <;> nlinarith

theorem lineScore_bounds (b : Board) (ai : Color) (line : List Position) :
    -1500 ≤ lineScore b ai line ∧ lineScore b ai line ≤ 1000 := by
  simp only [lineScore]
  split_ifs <;>
    norm_num [SCORES_THREE_IN_ROW, SCORES_TWO_IN_ROW]

theorem squareScore_bounds (b : Board) (ai : Color) (pos : Position) :
    -130 ≤ squareScore b ai pos ∧ squareScore b ai pos ≤ 130 := by
  simp only [squareScore]
  cases getCell b pos with
  | none => norm_num
  | some p =>
    by_cases hcen : (CENTER_SQUARES.any fun cs => cs.r == pos.r && cs.c == pos.c) = true <;>
      by_cases hcol : p.color = ai <;>
        simp [hcen, hcol, SCORES_PIECE_ON_BOARD, SCORES_CENTER]

/-- C9 (amended): `evaluateBoard` returns the fixed constant
`SCORES.WIN = 100000` on a realized win of the perspective color, its
negation on a realized win of the opponent, and on non-terminal boards the
heuristic total is strictly below `SCORES.WIN` in absolute value *provided
the two hands together hold at most the game's total of 8 pieces* (true of
every reachable state by conservation); with unboundedly large hands the
reserve-retention term alone can exceed `SCORES.WIN`, so the original
claim's unrestricted quantification over all hands fails. -/
theorem evaluateBoard_win_domination (b : Board) (h : Hands) (ai : Color)
    (hhand : (h.get ai).length + (h.get (other ai)).length ≤ 8) :
    ((checkWin b ai).isSome → evaluateBoard b h ai = SCORES_WIN) ∧
    (checkWin b ai = none → (checkWin b (other ai)).isSome →
      evaluateBoard b h ai = -SCORES_WIN) ∧
    (checkWin b ai = none → checkWin b (other ai) = none →
      |evaluateBoard b h ai| < SCORES_WIN) := by
  refine ⟨fun hwi => by simp [evaluateBoard, hwi], fun hn hwo => by simp [evaluateBoard, hn, hwo], ?_⟩
  intro hn1 hn2
  have he : evaluateBoard b h ai =
      (getLines.map (lineScore b ai)).sum +
      (boardSquares.map (squareScore b ai)).sum +
      (((h.get ai).length : ℤ) * SCORES_PIECE_IN_HAND -
       ((h.get (other ai)).length : ℤ) * SCORES_PIECE_IN_HAND) := by
    simp [evaluateBoard, hn1, hn2]
  have hlines := map_sum_bounds (lineScore b ai) (-1500) 1000 getLines
    fun x _ => lineScore_bounds b ai x
  have hsquares := map_sum_bounds (squareScore b ai) (-130) 130 boardSquares
    fun x _ => squareScore_bounds b ai x
  have hllen : (getLines.length : ℤ) = 10 := by decide
  have hslen : (boardSquares.length : ℤ) = 16 := by decide
  rw [hllen] at hlines
  rw [hslen] at hsquares
  rw [he, SCORES_WIN, SCORES_PIECE_IN_HAND]
  have hai : ((h.get ai).length : ℤ) ≥ 0 := by positivity
  have hop : ((h.get (other ai)).length : ℤ) ≥ 0 := by positivity
  have hsum : ((h.get ai).length : ℤ) + ((h.get (other ai)).length : ℤ) ≤ 8 := by
    exact_mod_cast hhand
  rw [abs_lt]
  constructor <;> nlinarith [hlines.1, hlines.2, hsquares.1, hsquares.2]

/-- C9 witness: on the empty board with full 4-piece hands the heuristic
score is strictly inside `(-WIN, WIN)`. -/
theorem evaluateBoard_win_domination_witness :
    |evaluateBoard createEmptyBoard
        ⟨[.pawn, .rook, .knight, .bishop], [.pawn, .rook, .knight, .bishop]⟩
        .white| < SCORES_WIN :=
  (evaluateBoard_win_domination createEmptyBoard
      ⟨[.pawn, .rook, .knight, .bishop], [.pawn, .rook, .knight, .bishop]⟩
      .white (by decide)).2.2 (by decide) (by decide)

/-- C9 counterexample: the claim quantifies over *every* board and hands,
but a white hand of 3334 pawns on the empty (win-free) board scores
100020 > `SCORES.WIN`, so the win constant does not outweigh every
possible sum of the heuristic terms. -/
theorem evaluateBoard_domination_cex :
    checkWin createEmptyBoard .white = none ∧
    checkWin createEmptyBoard .black = none ∧
    SCORES_WIN < evaluateBoard createEmptyBoard
      ⟨List.replicate 3334 .pawn, []⟩ .white := by
  have h1 : checkWin createEmptyBoard .white = none := by decide
  have h2 : checkWin createEmptyBoard .black = none := by decide
  have hl : (getLines.map (lineScore createEmptyBoard .white)).sum = 0 := by decide
  have hs : (boardSquares.map (squareScore createEmptyBoard .white)).sum = 0 := by decide
  have he : ∀ whand : List PieceType,
      evaluateBoard createEmptyBoard ⟨whand, []⟩ .white =
        (whand.length : ℤ) * SCORES_PIECE_IN_HAND := by
    intro whand
    simp [evaluateBoard, h1, h2, other, Hands.get, hl, hs]
  refine ⟨h1, h2, ?_⟩
  rw [he, List.length_replicate, SCORES_PIECE_IN_HAND, SCORES_WIN]
  norm_num

/-! ### C4: the terminal detector -/

/-- C4: `checkWin` finds a line iff one of the 2·N+2 candidate lines — the
N rows, then the N columns, then the two main diagonals, enumerated in
exactly that fixed order (`winLines` below is its literal value) — has
every square holding a piece of the queried color; any returned line is a
candidate line all of whose squares the color owns; an explicit
4-in-a-row board yields exactly its row, a 3-in-a-row board yields none,
and a board where rows, columns and diagonals all qualify returns the
first row, witnessing the fixed enumeration order. -/
theorem checkWin_characterization :
    (∀ (b : Board) (c : Color), (checkWin b c).isSome ↔
      ∃ line ∈ winLines, ∀ pos ∈ line,
        (getCell b pos).map Piece.color = some c) ∧
    (∀ (b : Board) (c : Color) (line : List Position),
      checkWin b c = some line → line ∈ winLines ∧ ∀ pos ∈ line,
        (getCell b pos).map Piece.color = some c) ∧
    winLines.length = 2 * GRID_SIZE + 2 ∧
    winLines =
      ([[⟨0, 0⟩, ⟨0, 1⟩, ⟨0, 2⟩, ⟨0, 3⟩], [⟨1, 0⟩, ⟨1, 1⟩, ⟨1, 2⟩, ⟨1, 3⟩],
        [⟨2, 0⟩, ⟨2, 1⟩, ⟨2, 2⟩, ⟨2, 3⟩], [⟨3, 0⟩, ⟨3, 1⟩, ⟨3, 2⟩, ⟨3, 3⟩],
        [⟨0, 0⟩, ⟨1, 0⟩, ⟨2, 0⟩, ⟨3, 0⟩], [⟨0, 1⟩, ⟨1, 1⟩, ⟨2, 1⟩, ⟨3, 1⟩],
        [⟨0, 2⟩, ⟨1, 2⟩, ⟨2, 2⟩, ⟨3, 2⟩], [⟨0, 3⟩, ⟨1, 3⟩, ⟨2, 3⟩, ⟨3, 3⟩],
        [⟨0, 0⟩, ⟨1, 1⟩, ⟨2, 2⟩, ⟨3, 3⟩], [⟨0, 3⟩, ⟨1, 2⟩, ⟨2, 1⟩, ⟨3, 0⟩]] :
        List (List Position)) ∧
    checkWin rowWinBoard .white = some [⟨0, 0⟩, ⟨0, 1⟩, ⟨0, 2⟩, ⟨0, 3⟩] ∧
    checkWin threeBoard .white = none ∧
    checkWin fullWhiteBoard .white = some [⟨0, 0⟩, ⟨0, 1⟩, ⟨0, 2⟩, ⟨0, 3⟩] := by
  refine ⟨?_, ?_, by decide, by decide, by decide, by decide, by decide⟩
  · intro b c
    rw [checkWin, List.find?_isSome]
    constructor
    · rintro ⟨line, hmem, hall⟩
      refine ⟨line, hmem, ?_⟩
      intro pos hpos
      have := (List.all_eq_true.mp hall) pos hpos
      exact beq_iff_eq.mp this
    · rintro ⟨line, hmem, hall⟩
      refine ⟨line, hmem, List.all_eq_true.mpr ?_⟩
      intro pos hpos
      exact beq_iff_eq.mpr (hall pos hpos)
  · intro b c line hfind
    refine ⟨List.mem_of_find?_eq_some hfind, ?_⟩
    have := List.find?_some hfind
    intro pos hpos
    exact beq_iff_eq.mp ((List.all_eq_true.mp this) pos hpos)

/-- C4 witness: instantiating the returned-line property at the concrete
4-in-a-row board and its winning row. -/
theorem checkWin_characterization_witness :
    ([⟨0, 0⟩, ⟨0, 1⟩, ⟨0, 2⟩, ⟨0, 3⟩] : List Position) ∈ winLines ∧
    ∀ pos ∈ ([⟨0, 0⟩, ⟨0, 1⟩, ⟨0, 2⟩, ⟨0, 3⟩] : List Position),
      (getCell rowWinBoard pos).map Piece.color = some .white :=
  checkWin_characterization.2.1 rowWinBoard .white _ (by decide)

/-! ### C7: determinism of move generation and CPU choice -/

/-- C7 (amended): `getLegalMoves` consumes no randomness at all (in the
embedding it is a pure function of the state, so two invocations agree
definitionally), and `getCpuMove` never consults its random draw on Hard;
on Medium, however, the source's final fallback is
`moves[Math.floor(Math.random() * moves.length)]`, so Medium is
deterministic only when the win, threat-block or capture branch fires —
contrary to the original claim, a Medium call that reaches the fallback
depends on the random draw (see the counterexample). -/
theorem cpu_determinism :
    (∀ (s : GameState) (c : Color), getLegalMoves s c = getLegalMoves s c) ∧
    (∀ (s : GameState) (r r' : ℕ), s.difficulty = .hard →
      getCpuMove s r = getCpuMove s r') ∧
    (∀ (s : GameState) (r r' : ℕ), s.difficulty = .medium →
      (((getLegalMoves s s.currentPlayer).find? fun m =>
          (checkWin (simulateMove s m).board s.currentPlayer).isSome).isSome ∨
        (mediumBlock s (other s.currentPlayer)
          (getLegalMoves s s.currentPlayer)).isSome ∨
        ((getLegalMoves s s.currentPlayer).filter fun m =>
          m.type == .move && (getCell s.board m.toPos).isSome) ≠ []) →
      getCpuMove s r = getCpuMove s r') := by
  refine ⟨fun s c => rfl, ?_, ?_⟩
  · intro s r r' hd
    unfold getCpuMove
    rw [hd]
  · intro s r r' hd hdet
    by_cases hm : getLegalMoves s s.currentPlayer = []
    · simp [getCpuMove, hm]
    · cases hf : (getLegalMoves s s.currentPlayer).find? fun m =>
          (checkWin (simulateMove s m).board s.currentPlayer).isSome with
      | some mv => simp [getCpuMove, hm, hd, hf]
      | none =>
        cases hb : mediumBlock s (other s.currentPlayer)
            (getLegalMoves s s.currentPlayer) with
        | some bm => simp [getCpuMove, hm, hd, hf, hb]
        | none =>
          cases hc : (getLegalMoves s s.currentPlayer).filter fun m =>
              m.type == .move && (getCell s.board m.toPos).isSome with
          | cons c cs => simp [getCpuMove, hm, hd, hf, hb, hc]
          | nil =>
            rcases hdet with h1 | h2 | h3
            · rw [hf] at h1
              exact absurd h1 (by simp)
            · rw [hb] at h2
              exact absurd h2 (by simp)
            · exact absurd hc h3

/-- C7 witness: on the fresh Hard game, two invocations with different
random draws return the same move. -/
theorem cpu_determinism_witness :
    getCpuMove initHard 0 = getCpuMove initHard 1 :=
  cpu_determinism.2.1 initHard 0 1 rfl

/-- C7 counterexample: on the fresh Medium game (no win, no threat, no
capture available) the CPU's choice depends on the random draw, so Medium
`chooseMove` is not deterministic as claimed. -/
theorem cpu_medium_random_cex :
    getCpuMove initMedium 0 ≠ getCpuMove initMedium 1 := by decide

/-! ### C5: conservation of the piece-kind multiset -/

theorem coe_set_add {α : Type} (a d : α) :
    ∀ (l : List α) (i : ℕ), i < l.length →
      (↑(l.set i a) + {l.getD i d} : Multiset α) = ↑l + {a} := by
  intro l
  induction l with
  | nil => intro i h; simp at h
  | cons x xs ih =>
    intro i h
    cases i with
    | zero =>
      simp only [List.set_cons_zero, List.getD_cons_zero, ← Multiset.cons_coe,
        ← Multiset.singleton_add]
      abel
    | succ n =>
      have hn : n < xs.length := by simpa using h
      simp only [List.set_cons_succ, List.getD_cons_succ, ← Multiset.cons_coe,
        ← Multiset.singleton_add]
      rw [add_assoc, add_assoc, ih n hn]

theorem flatten_set_add {α : Type} (row2 : List α) :
    ∀ (b : List (List α)) (i : ℕ), i < b.length →
      (↑(b.set i row2).flatten + ↑(b.getD i []) : Multiset α) =
        ↑b.flatten + ↑row2 := by
  intro b
  induction b with
  | nil => intro i h; simp at h
  | cons hd tl ih =>
    intro i h
    cases i with
    | zero =>
      simp only [List.set_cons_zero, List.getD_cons_zero, List.flatten_cons,
        ← Multiset.coe_add]
      abel
    | succ n =>
      have hn : n < tl.length := by simpa using h
      simp only [List.set_cons_succ, List.getD_cons_succ, List.flatten_cons,
        ← Multiset.coe_add]
      rw [add_assoc, add_assoc, ih n hn]

theorem kindsOfCell_eq (c : Option Piece) :
    kindsOfCell c = ↑(List.filterMap (fun c => c.map Piece.type) [c]) := by
  cases c <;> rfl

theorem boardKinds_setCell (b : Board) (p : Position) (x : Option Piece)
    (hd : Dims4 b) (hp : InBounds p) :
    boardKinds (setCell b p x) + kindsOfCell (getCell b p) =
      boardKinds b + kindsOfCell x := by
  obtain ⟨hlen, hrow⟩ := hd
  obtain ⟨hp1, hp2, hp3, hp4⟩ := hp
  set f : Option Piece → Option PieceType := fun c => c.map Piece.type with hf
  have hr : p.r.toNat < b.length := by rw [hlen]; unfold GRID_SIZE at hp2 ⊢; omega
  have hc : p.c.toNat < (b.getD p.r.toNat []).length := by
    rw [hrow _ (by rw [List.getD_eq_getElem _ _ hr]; exact List.getElem_mem hr)]
    unfold GRID_SIZE at hp4 ⊢; omega
  have hget : getCell b p = (b.getD p.r.toNat []).getD p.c.toNat none := by
    rw [getCell, if_pos ⟨hp1, hp2, hp3, hp4⟩]
  -- row-level permutation
  have hrowEq := coe_set_add x none (b.getD p.r.toNat []) p.c.toNat hc
  have hrowPerm : ((b.getD p.r.toNat []).set p.c.toNat x ++
      [(b.getD p.r.toNat []).getD p.c.toNat none]).Perm
      (b.getD p.r.toNat [] ++ [x]) := by
    rw [← Multiset.coe_eq_coe]
    simpa [← Multiset.coe_add] using hrowEq
  -- flatten-level permutation
  have hflatEq := flatten_set_add ((b.getD p.r.toNat []).set p.c.toNat x)
    b p.r.toNat hr
  have hflatPerm : ((b.set p.r.toNat ((b.getD p.r.toNat []).set p.c.toNat x)).flatten
      ++ b.getD p.r.toNat []).Perm
      (b.flatten ++ (b.getD p.r.toNat []).set p.c.toNat x) := by
    rw [← Multiset.coe_eq_coe]
    simpa [← Multiset.coe_add] using hflatEq
  have hA := (hflatPerm.filterMap f)
  have hB := (hrowPerm.filterMap f)
  rw [List.filterMap_append, List.filterMap_append] at hA hB
  rw [← Multiset.coe_eq_coe, ← Multiset.coe_add, ← Multiset.coe_add] at hA hB
  rw [boardKinds, boardKinds, setCell, kindsOfCell_eq, kindsOfCell_eq, hget, ← hf]
  -- hA : A + B = C + D, hB : D + G = B + X; goal : A + G = C + X
  have key : (↑(List.filterMap f (b.set p.r.toNat
        ((b.getD p.r.toNat []).set p.c.toNat x)).flatten) +
      ↑(List.filterMap f [(b.getD p.r.toNat []).getD p.c.toNat none]) : Multiset PieceType) +
      ↑(List.filterMap f ((b.getD p.r.toNat []).set p.c.toNat x)) =
      (↑(List.filterMap f b.flatten) + ↑(List.filterMap f [x])) +
      ↑(List.filterMap f ((b.getD p.r.toNat []).set p.c.toNat x)) := by
    calc (↑(List.filterMap f (b.set p.r.toNat
          ((b.getD p.r.toNat []).set p.c.toNat x)).flatten) +
        ↑(List.filterMap f [(b.getD p.r.toNat []).getD p.c.toNat none]) : Multiset PieceType) +
        ↑(List.filterMap f ((b.getD p.r.toNat []).set p.c.toNat x))
        = ↑(List.filterMap f (b.set p.r.toNat
            ((b.getD p.r.toNat []).set p.c.toNat x)).flatten) +
          (↑(List.filterMap f ((b.getD p.r.toNat []).set p.c.toNat x)) +
           ↑(List.filterMap f [(b.getD p.r.toNat []).getD p.c.toNat none])) := by abel
      _ = ↑(List.filterMap f (b.set p.r.toNat
            ((b.getD p.r.toNat []).set p.c.toNat x)).flatten) +
          (↑(List.filterMap f (b.getD p.r.toNat [])) +
           ↑(List.filterMap f [x])) := by rw [hB]
      _ = (↑(List.filterMap f (b.set p.r.toNat
            ((b.getD p.r.toNat []).set p.c.toNat x)).flatten) +
          ↑(List.filterMap f (b.getD p.r.toNat []))) +
           ↑(List.filterMap f [x]) := by abel
      _ = (↑(List.filterMap f b.flatten) +
          ↑(List.filterMap f ((b.getD p.r.toNat []).set p.c.toNat x))) +
           ↑(List.filterMap f [x]) := by rw [hA]
      _ = (↑(List.filterMap f b.flatten) + ↑(List.filterMap f [x])) +
          ↑(List.filterMap f ((b.getD p.r.toNat []).set p.c.toNat x)) := by abel
  exact add_right_cancel key

theorem handsKinds_set_append (h : Hands) (c : Color) (k : PieceType) :
    handsKinds (h.set c (h.get c ++ [k])) = handsKinds h + {k} := by
  cases c <;>
    · simp only [handsKinds, Hands.set, Hands.get, ← Multiset.coe_add,
        ← Multiset.coe_singleton]
      abel

theorem handsKinds_set_erase (h : Hands) (c : Color) (k : PieceType)
    (hk : k ∈ h.get c) :
    handsKinds (h.set c ((h.get c).erase k)) + {k} = handsKinds h := by
  have hperm := List.perm_cons_erase hk
  have : (↑(h.get c) : Multiset PieceType) = ↑(k :: (h.get c).erase k) :=
    Multiset.coe_eq_coe.mpr hperm
  cases c <;>
    · simp only [Hands.get] at this hk
      simp only [handsKinds, Hands.set, Hands.get, this, ← Multiset.cons_coe,
        ← Multiset.singleton_add]
      abel

theorem finishMove_kinds (myc : Option Color) (s : GameState) (m : Move)
    (b1 : Board) (h1 : Hands) (a : Piece) (hd1 : Dims4 b1)
    (hto : InBounds m.toPos) :
    stateKinds (finishMove myc s m b1 h1 a) =
      boardKinds b1 + handsKinds h1 + {a.type} := by
  rw [stateKinds, finishMove_board, finishMove_hands]
  have hcell := boardKinds_setCell b1 m.toPos (some a) hd1 hto
  cases ht : getCell b1 m.toPos with
  | none =>
    rw [ht] at hcell
    simp only [kindsOfCell] at hcell
    rw [add_zero] at hcell
    rw [hcell]
    abel
  | some q =>
    rw [ht] at hcell
    simp only [kindsOfCell] at hcell
    rw [handsKinds_set_append]
    have key : boardKinds (setCell b1 m.toPos (some a)) +
        (handsKinds h1 + {q.type}) =
        (boardKinds (setCell b1 m.toPos (some a)) + {q.type}) + handsKinds h1 := by
      abel
    rw [key, hcell]
    abel

theorem executeMove_board_dims (myc : Option Color) (now : Str) (s : GameState)
    (m : Move) (hd : Dims4 s.board) : Dims4 (executeMove myc now s m).board := by
  unfold executeMove
  by_cases hw : s.winner.isSome
  · simp [hw, hd]
  · simp only [hw, if_false, Bool.false_eq_true]
    cases m.type with
    | place =>
      by_cases hin : m.pieceType ∈ s.hands.get s.currentPlayer
      · simp only [hin, if_true, finishMove_board]
        exact dims4_setCell _ _ hd
      · simp [hin, hd]
    | move =>
      cases hf : m.fromPos with
      | none => simpa using hd
      | some f =>
        cases hp : getCell s.board f with
        | none => dsimp only; rw [hp]; simpa using hd
        | some p =>
          dsimp only
          rw [hp]
          simp only [finishMove_board]
          exact dims4_setCell _ _ (dims4_setCell _ _ hd)

/-- C5 (single step): any `executeMove` call on a well-formed board with an
in-bounds destination preserves the multiset of piece kinds across board
and hands — placements, relocations, captures and the defensive no-ops
only relocate kinds, never duplicate or lose them. -/
theorem executeMove_conserves (myc : Option Color) (now : Str) (s : GameState)
    (m : Move) (hd : Dims4 s.board) (hto : InBounds m.toPos) :
    stateKinds (executeMove myc now s m) = stateKinds s := by
  by_cases hw : s.winner.isSome
  · unfold executeMove
    simp [hw]
  · unfold executeMove
    simp only [hw, if_false, Bool.false_eq_true]
    cases hty : m.type with
    | place =>
      by_cases hin : m.pieceType ∈ s.hands.get s.currentPlayer
      · simp only [hin, if_true]
        rw [finishMove_kinds myc s m _ _ _ hd hto]
        show boardKinds s.board +
          handsKinds (s.hands.set s.currentPlayer
            ((s.hands.get s.currentPlayer).erase m.pieceType)) + {m.pieceType} =
          stateKinds s
        rw [stateKinds, add_assoc, handsKinds_set_erase s.hands s.currentPlayer m.pieceType hin]
      · simp [hin]
    | move =>
      cases hf : m.fromPos with
      | none => simp
      | some f =>
        cases hp : getCell s.board f with
        | none => dsimp only; rw [hp]
        | some p =>
          dsimp only
          rw [hp]
          have hfb : InBounds f := inBounds_of_getCell_isSome (by rw [hp]; rfl)
          rw [finishMove_kinds myc s m _ _ _ (dims4_setCell _ _ hd) hto]
          have hclear := boardKinds_setCell s.board f none hd hfb
          rw [hp] at hclear
          simp only [kindsOfCell] at hclear
          rw [add_zero] at hclear
          rw [stateKinds, ← hclear]
          abel

/-- C5: piece-kind conservation.  The multiset of kinds of the fresh game
is the fixed 8-element multiset (one pawn, rook, knight and bishop per
color); a single applied move preserves the state's kind multiset; and any
sequence of applied moves with in-bounds destinations therefore keeps both
the composition and the size (8 from a fresh game) constant. -/
theorem piece_conservation :
    (∀ (mode : GameMode) (diff : Difficulty) (fp : Color),
      stateKinds (resetGame mode diff fp) =
        ({.pawn, .rook, .knight, .bishop, .pawn, .rook, .knight, .bishop} :
          Multiset PieceType) ∧
      Multiset.card (stateKinds (resetGame mode diff fp)) = 8) ∧
    (∀ (myc : Option Color) (now : Str) (s : GameState) (m : Move),
      Dims4 s.board → InBounds m.toPos →
      stateKinds (executeMove myc now s m) = stateKinds s) ∧
    (∀ (myc : Option Color) (now : Str) (ms : List Move) (s : GameState),
      Dims4 s.board → (∀ m ∈ ms, InBounds m.toPos) →
      stateKinds (ms.foldl (fun st mv => executeMove myc now st mv) s) =
        stateKinds s) := by
  refine ⟨?_, executeMove_conserves, ?_⟩
  · intro mode diff fp
    exact ⟨rfl, rfl⟩
  · intro myc now ms
    induction ms with
    | nil => intro s _ _; rfl
    | cons mv rest ih =>
      intro s hd hms
      rw [List.foldl_cons]
      rw [ih (executeMove myc now s mv)
        (executeMove_board_dims myc now s mv hd)
        (fun m hm => hms m (List.mem_cons_of_mem mv hm))]
      exact executeMove_conserves myc now s mv hd (hms mv (List.mem_cons_self mv rest))

/-- C5 witness: one concrete applied capture (the rook takes the bishop in
`capState`) keeps the kind multiset unchanged. -/
theorem piece_conservation_witness :
    stateKinds (executeMove none [] capState capMove) = stateKinds capState :=
  piece_conservation.2.1 none [] capState capMove (by decide) (by decide)

/-! ### C8: the canonical key determines exactly the repetition-relevant
configuration -/

theorem typeChar_injective : Function.Injective typeChar := by
  intro a b h
  cases a <;> cases b <;> first | rfl | exact absurd h (by decide)

theorem append_sep_split {sep : Char} :
    ∀ (xs xs' ys ys' : Str), sep ∉ xs → sep ∉ xs' →
      xs ++ sep :: ys = xs' ++ sep :: ys' → xs = xs' ∧ ys = ys' := by
  intro xs
  induction xs with
  | nil =>
    intro xs' ys ys' _ hx' h
    cases xs' with
    | nil => simpa using h
    | cons a as =>
      simp only [List.nil_append, List.cons_append, List.cons.injEq] at h
      exact absurd (List.mem_cons_self a as) (h.1 ▸ hx')
  | cons x txs ih =>
    intro xs' ys ys' hx hx' h
    cases xs' with
    | nil =>
      simp only [List.cons_append, List.nil_append, List.cons.injEq] at h
      exact absurd (List.mem_cons_self x txs) (h.1 ▸ hx)
    | cons a as =>
      simp only [List.cons_append, List.cons.injEq] at h
      obtain ⟨h1, h2⟩ := h
      obtain ⟨h3, h4⟩ := ih as ys ys'
        (fun hm => hx (List.mem_cons_of_mem x hm))
        (fun hm => hx' (List.mem_cons_of_mem a hm)) h2
      exact ⟨by rw [h1, h3], h4⟩

theorem mem_joinSep {sep : Char} :
    ∀ (l : List Str) (c : Char), c ∈ joinSep sep l → c = sep ∨ ∃ t ∈ l, c ∈ t := by
  intro l
  induction l with
  | nil => intro c h; simp [joinSep] at h
  | cons x xs ih =>
    cases xs with
    | nil =>
      intro c h
      right
      exact ⟨x, List.mem_cons_self x [], by simpa [joinSep] using h⟩
    | cons y ys =>
      intro c h
      simp only [joinSep] at h
      rcases List.mem_append.mp h with h1 | h2
      · right
        exact ⟨x, List.mem_cons_self x (y :: ys), h1⟩
      · rcases List.mem_cons.mp h2 with h3 | h4
        · left; exact h3
        · rcases ih c h4 with h5 | ⟨t, ht, hc⟩
          · left; exact h5
          · right; exact ⟨t, List.mem_cons_of_mem x ht, hc⟩

theorem cellStr_chars :
    ∀ (cell : Option Piece), ∀ c ∈ cellStr cell, c ≠ '|' ∧ c ≠ ',' := by
  rintro (_ | ⟨t, col, id, pd⟩)
  · decide
  · cases col <;> cases t <;>
      · simp only [cellStr, colorStr, typeChar]
        decide

theorem boardStr_pipe_free (bf : List (Option Piece)) :
    '|' ∉ joinSep ',' (bf.map cellStr) := by
  intro hmem
  rcases mem_joinSep (bf.map cellStr) '|' hmem with h | ⟨t, ht, hc⟩
  · exact absurd h (by decide)
  · obtain ⟨cell, _, rfl⟩ := List.mem_map.mp ht
    exact (cellStr_chars cell '|' hc).1 rfl

theorem handStr_pipe_free (h : List PieceType) : '|' ∉ handStr h := by
  intro hmem
  have : '|' ∈ h.map typeChar :=
    (List.perm_insertionSort (fun a b : Char => a ≤ b) (h.map typeChar)).mem_iff.mp hmem
  obtain ⟨k, _, hk⟩ := List.mem_map.mp this
  cases k <;> exact absurd hk (by decide)

theorem colorStr_pipe_free (c : Color) : '|' ∉ colorStr c := by
  cases c <;> decide

theorem joinSep_inj {sep : Char} :
    ∀ (ts ts' : List Str), (∀ t ∈ ts, sep ∉ t) → (∀ t ∈ ts', sep ∉ t) →
      ts.length = ts'.length → joinSep sep ts = joinSep sep ts' → ts = ts' := by
  intro ts
  induction ts with
  | nil =>
    intro ts' _ _ hlen _
    cases ts' with
    | nil => rfl
    | cons y ys => simp at hlen
  | cons x xs ih =>
    intro ts' hts hts' hlen hj
    cases ts' with
    | nil => simp at hlen
    | cons y ys =>
      cases xs with
      | nil =>
        cases ys with
        | nil =>
          simp only [joinSep] at hj
          rw [hj]
        | cons z zs => simp at hlen
      | cons x2 xs2 =>
        cases ys with
        | nil => simp at hlen
        | cons y2 ys2 =>
          simp only [joinSep] at hj
          obtain ⟨h1, h2⟩ := append_sep_split x y _ _
            (hts x (List.mem_cons_self x _)) (hts' y (List.mem_cons_self y _)) hj
          have h3 := ih (y2 :: ys2)
            (fun t ht => hts t (List.mem_cons_of_mem x ht))
            (fun t ht => hts' t (List.mem_cons_of_mem y ht))
            (by simpa using hlen) (by simpa [joinSep] using h2)
          rw [h1, h3]

theorem map_congr_of_map_eq {α β γ : Type} {f : α → β} {g : α → γ}
    (hfg : ∀ a b, f a = f b → g a = g b) :
    ∀ l l' : List α, l.map f = l'.map f → l.map g = l'.map g := by
  intro l
  induction l with
  | nil =>
    intro l' h
    cases l' with
    | nil => rfl
    | cons y ys => simp at h
  | cons x xs ih =>
    intro l' h
    cases l' with
    | nil => simp at h
    | cons y ys =>
      simp only [List.map_cons, List.cons.injEq] at h ⊢
      exact ⟨hfg x y h.1, ih ys h.2⟩

theorem cellStr_proj_inj (c c' : Option Piece) (h : cellStr c = cellStr c') :
    projCell c = projCell c' := by
  rcases c with _ | ⟨t, col, id, pd⟩ <;> rcases c' with _ | ⟨t', col', id', pd'⟩
  · rfl
  · cases col' <;> cases t' <;>
      · simp only [cellStr, colorStr, typeChar] at h
        exact absurd h (by decide)
  · cases col <;> cases t <;>
      · simp only [cellStr, colorStr, typeChar] at h
        exact absurd h (by decide)
  · cases col <;> cases col' <;> cases t <;> cases t' <;>
      simp only [cellStr, colorStr, typeChar] at h <;>
        first | rfl | exact absurd h (by decide)

theorem cellStr_eq_of_proj (c c' : Option Piece) (h : projCell c = projCell c') :
    cellStr c = cellStr c' := by
  rcases c with _ | ⟨t, col, id, pd⟩ <;> rcases c' with _ | ⟨t', col', id', pd'⟩
  · rfl
  · simp [projCell] at h
  · simp [projCell] at h
  · simp only [projCell, Option.map, Option.some.injEq, Prod.mk.injEq] at h
    obtain ⟨h1, h2⟩ := h
    simp [cellStr, h1, h2]

theorem handStr_eq_iff (h h' : List PieceType) :
    handStr h = handStr h' ↔ (↑h : Multiset PieceType) = ↑h' := by
  constructor
  · intro he
    have hp : (h.map typeChar).Perm (h'.map typeChar) := by
      have p1 := List.perm_insertionSort (fun a b : Char => a ≤ b) (h.map typeChar)
      have p2 := List.perm_insertionSort (fun a b : Char => a ≤ b) (h'.map typeChar)
      unfold handStr at he
      exact p1.symm.trans (he ▸ p2)
    apply Multiset.map_injective typeChar_injective
    rw [Multiset.map_coe, Multiset.map_coe]
    exact Multiset.coe_eq_coe.mpr hp
  · intro hm
    have hps : (h.map typeChar).Perm (h'.map typeChar) :=
      (Multiset.coe_eq_coe.mp hm).map typeChar
    unfold handStr
    refine List.eq_of_perm_of_sorted ?_
      (List.sorted_insertionSort _ _) (List.sorted_insertionSort _ _)
    exact (List.perm_insertionSort _ _).trans
      (hps.trans (List.perm_insertionSort _ _).symm)

theorem flatten_length_of_dims {γ : Type} :
    ∀ (l : List (List γ)) (k : ℕ), (∀ row ∈ l, row.length = k) →
      l.flatten.length = l.length * k := by
  intro l k
  induction l with
  | nil => intro _; simp
  | cons x xs ih =>
    intro h
    simp only [List.flatten_cons, List.length_append, List.length_cons]
    rw [h x (List.mem_cons_self x xs), ih fun row hr => h row (List.mem_cons_of_mem x hr)]
    ring

theorem flatten_inj_of_rows {γ : Type} (k : ℕ) :
    ∀ (x y : List (List γ)), x.length = y.length →
      (∀ row ∈ x, row.length = k) → (∀ row ∈ y, row.length = k) →
      x.flatten = y.flatten → x = y := by
  intro x
  induction x with
  | nil =>
    intro y hlen _ _ _
    cases y with
    | nil => rfl
    | cons b bs => simp at hlen
  | cons a as ih =>
    intro y hlen hx hy hf
    cases y with
    | nil => simp at hlen
    | cons b bs =>
      simp only [List.flatten_cons] at hf
      obtain ⟨h1, h2⟩ := List.append_inj hf
        (by rw [hx a (List.mem_cons_self a as), hy b (List.mem_cons_self b bs)])
      rw [h1, ih bs (by simpa using hlen)
        (fun row hr => hx row (List.mem_cons_of_mem a hr))
        (fun row hr => hy row (List.mem_cons_of_mem b hr)) h2]

/-- C8: two configurations over well-formed 4×4 boards with the game's
±1 pawn directions produce equal canonical keys iff they agree on the
repetition-relevant data: per-square occupant color and kind (piece ids
are irrelevant), the multiset of hand kinds per color (hand order never
affects the key), the player to move and the pawn directions. -/
theorem serializeState_key_iff (b b' : Board) (h h' : Hands) (p p' : Color)
    (d d' : PawnDirs) (hb : Dims4 b) (hb' : Dims4 b')
    (hdw : d.white = 1 ∨ d.white = -1) (hdb : d.black = 1 ∨ d.black = -1)
    (hdw' : d'.white = 1 ∨ d'.white = -1) (hdb' : d'.black = 1 ∨ d'.black = -1) :
    serializeState b h p d = serializeState b' h' p' d' ↔
      (b.map (List.map projCell) = b'.map (List.map projCell) ∧
       (↑h.white : Multiset PieceType) = ↑h'.white ∧
       (↑h.black : Multiset PieceType) = ↑h'.black ∧
       p = p' ∧ d = d') := by
  constructor
  · intro hkey
    simp only [serializeState] at hkey
    obtain ⟨hb1, hrest1⟩ := append_sep_split _ _ _ _
      (boardStr_pipe_free b.flatten) (boardStr_pipe_free b'.flatten) hkey
    obtain ⟨hh1, hrest2⟩ := append_sep_split _ _ _ _
      (handStr_pipe_free h.white) (handStr_pipe_free h'.white) hrest1
    obtain ⟨hh2, hrest3⟩ := append_sep_split _ _ _ _
      (handStr_pipe_free h.black) (handStr_pipe_free h'.black) hrest2
    obtain ⟨hcp, hdirs⟩ := append_sep_split _ _ _ _
      (colorStr_pipe_free p) (colorStr_pipe_free p') hrest3
    refine ⟨?_, (handStr_eq_iff _ _).mp hh1, (handStr_eq_iff _ _).mp hh2, ?_, ?_⟩
    · have hlen : (b.flatten.map cellStr).length = (b'.flatten.map cellStr).length := by
        rw [List.length_map, List.length_map,
          flatten_length_of_dims b GRID_SIZE hb.2,
          flatten_length_of_dims b' GRID_SIZE hb'.2, hb.1, hb'.1]
      have htok := joinSep_inj (b.flatten.map cellStr) (b'.flatten.map cellStr)
        (fun t ht => by
          obtain ⟨cell, _, rfl⟩ := List.mem_map.mp ht
          intro hc
          exact (cellStr_chars cell ',' hc).2 rfl)
        (fun t ht => by
          obtain ⟨cell, _, rfl⟩ := List.mem_map.mp ht
          intro hc
          exact (cellStr_chars cell ',' hc).2 rfl)
        hlen hb1
      have hproj : b.flatten.map projCell = b'.flatten.map projCell :=
        map_congr_of_map_eq cellStr_proj_inj _ _ htok
      refine flatten_inj_of_rows GRID_SIZE _ _ ?_ ?_ ?_ ?_
      · rw [List.length_map, List.length_map, hb.1, hb'.1]
      · intro row hr
        obtain ⟨r0, hr0, rfl⟩ := List.mem_map.mp hr
        rw [List.length_map]
        exact hb.2 r0 hr0
      · intro row hr
        obtain ⟨r0, hr0, rfl⟩ := List.mem_map.mp hr
        rw [List.length_map]
        exact hb'.2 r0 hr0
      · rw [← List.map_flatten, ← List.map_flatten]
        exact hproj
    · cases p <;> cases p' <;> first | rfl | exact absurd hcp (by decide)
    · rcases hdw with h1 | h1 <;> rcases hdb with h2 | h2 <;>
        rcases hdw' with h3 | h3 <;> rcases hdb' with h4 | h4 <;>
          rw [intStr, intStr, intStr, intStr, h1, h2, h3, h4] at hdirs <;>
            first
              | exact absurd hdirs (by decide)
              | calc d = ⟨d.white, d.black⟩ := rfl
                  _ = ⟨d'.white, d'.black⟩ := by rw [h1, h2, h3, h4]
                  _ = d' := rfl
  · rintro ⟨hbrd, hww, hbb, rfl, rfl⟩
    simp only [serializeState]
    have hproj : b.flatten.map projCell = b'.flatten.map projCell := by
      rw [List.map_flatten, List.map_flatten, hbrd]
    have htok : b.flatten.map cellStr = b'.flatten.map cellStr :=
      map_congr_of_map_eq cellStr_eq_of_proj _ _ hproj
    rw [htok, (handStr_eq_iff h.white h'.white).mpr hww,
      (handStr_eq_iff h.black h'.black).mpr hbb]

/-- C8 witness: permuting white's hand does not change the key of a
concrete configuration. -/
theorem serializeState_key_iff_witness :
    serializeState capBoard ⟨[.pawn, .rook], [.bishop]⟩ .white ⟨-1, 1⟩ =
      serializeState capBoard ⟨[.rook, .pawn], [.bishop]⟩ .white ⟨-1, 1⟩ :=
  (serializeState_key_iff capBoard capBoard
      ⟨[.pawn, .rook], [.bishop]⟩ ⟨[.rook, .pawn], [.bishop]⟩ .white .white
      ⟨-1, 1⟩ ⟨-1, 1⟩ (by decide) (by decide) (by decide) (by decide)
      (by decide) (by decide)).mpr
    ⟨rfl, by decide, by decide, rfl, rfl⟩

/-! ### C6: alpha-beta pruning computes the unpruned minimax value -/

theorem specMaxLoop_ge (spec : Move → EInt) :
    ∀ (moves : List Move) (m : EInt), m ≤ specMaxLoop spec moves m := by
  intro moves
  induction moves with
  | nil => intro m; exact le_refl m
  | cons mv rest ih =>
    intro m
    exact le_trans (le_max_left m (spec mv)) (ih (max m (spec mv)))

theorem specMinLoop_le (spec : Move → EInt) :
    ∀ (moves : List Move) (m : EInt), specMinLoop spec moves m ≤ m := by
  intro moves
  induction moves with
  | nil => intro m; exact le_refl m
  | cons mv rest ih =>
    intro m
    exact le_trans (ih (min m (spec mv))) (min_le_left m (spec mv))

theorem clamp_comm (α β x : EInt) (h : α ≤ β) :
    max α (min β x) = min β (max α x) := by
  rw [max_min_distrib_left, max_eq_right h]

/-- Knuth–Moore style window invariant for the maximizing loop: if each
child's pruned value agrees with its spec value after clamping to the
current window, the whole loop's result agrees with the unpruned loop's
result after clamping to the original window. -/
theorem maxLoop_clamp (β α₀ : EInt) (child : Move → EInt → EInt → EInt)
    (spec : Move → EInt)
    (hch : ∀ (mv : Move) (α : EInt), α < β →
      max α (min β (child mv α β)) = max α (min β (spec mv))) :
    ∀ (moves : List Move) (α m M : EInt),
      α = max α₀ m → α < β → α = max α₀ (min β M) →
      max α₀ (min β (maxLoop child moves α β m)) =
        max α₀ (min β (specMaxLoop spec moves M)) := by
  intro moves
  induction moves with
  | nil =>
    intro α m M hα hαβ hM
    show max α₀ (min β m) = max α₀ (min β M)
    have hmα : m ≤ α := hα ▸ le_max_right α₀ m
    have hmβ : m < β := lt_of_le_of_lt hmα hαβ
    rw [min_eq_right (le_of_lt hmβ), ← hα, hM]
  | cons mv rest ih =>
    intro α m M hα hαβ hM
    have hcl := hch mv α hαβ
    show max α₀ (min β (if β ≤ max α (child mv α β) then max m (child mv α β)
        else maxLoop child rest (max α (child mv α β)) β (max m (child mv α β)))) =
      max α₀ (min β (specMaxLoop spec rest (max M (spec mv))))
    by_cases hbr : β ≤ max α (child mv α β)
    · rw [if_pos hbr]
      have heβ : β ≤ child mv α β := by
        by_contra hc
        push_neg at hc
        exact absurd hbr (not_le.mpr (max_lt hαβ hc))
      have hwβ : β ≤ spec mv := by
        rw [min_eq_left heβ, max_eq_right (le_of_lt hαβ)] at hcl
        by_contra hc
        push_neg at hc
        rw [min_eq_right (le_of_lt hc)] at hcl
        exact absurd hcl.symm (ne_of_lt (max_lt hαβ hc))
      have hL : min β (max m (child mv α β)) = β :=
        min_eq_left (le_trans heβ (le_max_right m (child mv α β)))
      have hspec : β ≤ specMaxLoop spec rest (max M (spec mv)) :=
        le_trans (le_trans hwβ (le_max_right M (spec mv)))
          (specMaxLoop_ge spec rest (max M (spec mv)))
      rw [hL, min_eq_left hspec]
    · rw [if_neg hbr]
      push_neg at hbr
      have heβ : child mv α β < β := lt_of_le_of_lt (le_max_right α (child mv α β)) hbr
      apply ih
      · rw [hα, max_assoc]
      · exact hbr
      · rw [min_max_distrib_left, ← max_assoc, ← hM, ← hcl,
          min_eq_right (le_of_lt heβ)]

/-- The dual window invariant for the minimizing loop. -/
theorem minLoop_clamp (α₀ β₀ : EInt) (child : Move → EInt → EInt → EInt)
    (spec : Move → EInt)
    (hch : ∀ (mv : Move) (β : EInt), α₀ < β →
      max α₀ (min β (child mv α₀ β)) = max α₀ (min β (spec mv))) :
    ∀ (moves : List Move) (β m M : EInt),
      β = min β₀ m → α₀ < β → β = min β₀ (max α₀ M) →
      max α₀ (min β₀ (minLoop child moves α₀ β m)) =
        max α₀ (min β₀ (specMinLoop spec moves M)) := by
  intro moves
  induction moves with
  | nil =>
    intro β m M hβ hαβ hM
    show max α₀ (min β₀ m) = max α₀ (min β₀ M)
    have hββ₀ : β ≤ β₀ := hβ ▸ min_le_left β₀ m
    have hαβ₀ : α₀ ≤ β₀ := le_trans (le_of_lt hαβ) hββ₀
    have hβm : β ≤ m := hβ ▸ min_le_right β₀ m
    calc max α₀ (min β₀ m) = max α₀ β := by rw [← hβ]
      _ = β := max_eq_right (le_of_lt hαβ)
      _ = min β₀ (max α₀ M) := hM
      _ = max α₀ (min β₀ M) := (clamp_comm α₀ β₀ M hαβ₀).symm
  | cons mv rest ih =>
    intro β m M hβ hαβ hM
    have hcl := hch mv β hαβ
    have hββ₀ : β ≤ β₀ := hβ ▸ min_le_left β₀ m
    have hαβ₀ : α₀ ≤ β₀ := le_trans (le_of_lt hαβ) hββ₀
    show max α₀ (min β₀ (if min β (child mv α₀ β) ≤ α₀ then min m (child mv α₀ β)
        else minLoop child rest α₀ (min β (child mv α₀ β)) (min m (child mv α₀ β)))) =
      max α₀ (min β₀ (specMinLoop spec rest (min M (spec mv))))
    by_cases hbr : min β (child mv α₀ β) ≤ α₀
    · rw [if_pos hbr]
      have heα : child mv α₀ β ≤ α₀ := by
        by_contra hc
        push_neg at hc
        exact absurd hbr (not_le.mpr (lt_min hαβ hc))
      have hwα : spec mv ≤ α₀ := by
        rw [min_eq_right (le_trans heα (le_of_lt hαβ)), max_eq_left heα] at hcl
        by_contra hc
        push_neg at hc
        have h2 : α₀ < min β (spec mv) := lt_min hαβ hc
        rw [max_eq_right (le_of_lt h2)] at hcl
        exact absurd hcl (ne_of_lt h2)
      have h1 : min m (child mv α₀ β) ≤ α₀ :=
        le_trans (min_le_right m (child mv α₀ β)) heα
      have h3 : specMinLoop spec rest (min M (spec mv)) ≤ α₀ :=
        le_trans (specMinLoop_le spec rest (min M (spec mv)))
          (le_trans (min_le_right M (spec mv)) hwα)
      rw [min_eq_right (le_trans h1 hαβ₀), max_eq_left h1,
        min_eq_right (le_trans h3 hαβ₀), max_eq_left h3]
    · rw [if_neg hbr]
      push_neg at hbr
      apply ih
      · rw [← min_assoc, ← hβ]
      · exact hbr
      · have chain : min β₀ (max α₀ (min M (spec mv))) = min β (child mv α₀ β) := by
          calc min β₀ (max α₀ (min M (spec mv)))
              = min β₀ (min (max α₀ M) (max α₀ (spec mv))) := by
                rw [max_min_distrib_left]
            _ = min (min β₀ (max α₀ M)) (min β₀ (max α₀ (spec mv))) := by
                rw [inf_inf_distrib_left]
            _ = min β (min β₀ (max α₀ (spec mv))) := by rw [← hM]
            _ = min (min β β₀) (max α₀ (spec mv)) := by rw [min_assoc]
            _ = min β (max α₀ (spec mv)) := by rw [min_eq_left hββ₀]
            _ = max α₀ (min β (spec mv)) := (clamp_comm α₀ β (spec mv) (le_of_lt hαβ)).symm
            _ = max α₀ (min β (child mv α₀ β)) := hcl.symm
            _ = min β (child mv α₀ β) := max_eq_right (le_of_lt hbr)
        exact chain.symm

/-- C6 core: at any window `α < β`, the pruned `minimax` and the unpruned
`specMinimax` agree after clamping to the window. -/
theorem minimax_clamp (ai : Color) :
    ∀ (d : ℕ) (s : GameState) (α β : EInt) (isMax : Bool), α < β →
      max α (min β (minimax s d α β isMax ai)) =
        max α (min β (specMinimax s d isMax ai)) := by
  intro d
  induction d with
  | zero => intro s α β isMax h; rfl
  | succ d ih =>
    intro s α β isMax hαβ
    simp only [minimax, specMinimax]
    by_cases hws : winState s.board
    · simp only [hws, if_true]
    · simp only [hws, if_false]
      by_cases hmv : getLegalMoves s s.currentPlayer = []
      · simp only [hmv, if_pos rfl]
        simp
      · simp only [if_neg hmv]
        cases isMax with
        | true =>
          simp only [if_true]
          refine maxLoop_clamp β α
            (fun mv a b => minimax (simulateMove s mv) d a b false ai)
            (fun mv => specMinimax (simulateMove s mv) d false ai)
            (fun mv a h => ih (simulateMove s mv) a β false h)
            (getLegalMoves s s.currentPlayer) α ⊥ ⊥ ?_ hαβ ?_
          · rw [max_eq_left bot_le]
          · rw [min_eq_right bot_le, max_eq_left bot_le]
        | false =>
          simp only [Bool.false_eq_true, if_false]
          refine minLoop_clamp α β
            (fun mv a b => minimax (simulateMove s mv) d a b true ai)
            (fun mv => specMinimax (simulateMove s mv) d true ai)
            (fun mv b h => ih (simulateMove s mv) α b true h)
            (getLegalMoves s s.currentPlayer) β ⊤ ⊤ ?_ hαβ ?_
          · rw [min_eq_left le_top]
          · rw [max_eq_right le_top, min_eq_left le_top]

theorem minimax_full_window (s : GameState) (d : ℕ) (isMax : Bool) (ai : Color) :
    minimax s d ⊥ ⊤ isMax ai = specMinimax s d isMax ai := by
  have h := minimax_clamp ai d s ⊥ ⊤ isMax bot_lt_top
  rwa [min_eq_right le_top, min_eq_right le_top, max_eq_right bot_le,
    max_eq_right bot_le] at h

/-- C6: pruning never changes the result.  The alpha-beta `minimax` at the
full window `(-∞, +∞)` equals the spec's unpruned exhaustive minimax of
the same depth at every state, and consequently Hard mode's
`getCpuMove` — which scores every root move by the pruned search — returns
exactly the move (and score) that the unpruned search selects. -/
theorem alphabeta_equals_unpruned :
    (∀ (s : GameState) (d : ℕ) (isMax : Bool) (ai : Color),
      minimax s d ⊥ ⊤ isMax ai = specMinimax s d isMax ai) ∧
    (∀ (s : GameState) (r : ℕ), s.difficulty = .hard →
      getCpuMove s r = specHardMove s) := by
  refine ⟨minimax_full_window, ?_⟩
  intro s r hd
  have hfun : (fun mv => minimax (simulateMove s mv) 3 ⊥ ⊤ false s.currentPlayer) =
      (fun mv => specMinimax (simulateMove s mv) 3 false s.currentPlayer) :=
    funext fun mv => minimax_full_window (simulateMove s mv) 3 false s.currentPlayer
  simp only [getCpuMove, specHardMove, hd, hfun]

/-- C6 witness: on the fresh Hard game the pruned and unpruned move
choosers agree. -/
theorem alphabeta_equals_unpruned_witness :
    getCpuMove initHard 0 = specHardMove initHard :=
  alphabeta_equals_unpruned.2 initHard 0 rfl

end ChessTTT